import Mathlib

/-!
# sigrok-cli `main.c`: initialisation, dispatch and teardown

A shallow embedding of `src/main.c` (functions `logger`, `select_channels`,
`set_options`, `main`).

* Every function that `main.c` calls but does not define is an *external call*.
  Its observable behaviour is supplied by a `World`: the status it returns and
  the messages it hands to the GLib logging facility while it runs.
* `main` installs `logger` as the GLib default log handler before anything
  else, so every message (those of `g_critical` in `main.c` included) is
  delivered to `logger`, which may terminate the process with `exit(1)`.
* A piece of code yields the events it produced (calls, returns, stream
  operations) in chronological order, and the way it ended.
-/

namespace SigrokCli

/-! ## Constants of the external headers -/

/-- GLib `G_LOG_LEVEL_ERROR = 1 << 2`. -/
def G_LOG_LEVEL_ERROR : Nat := 4
/-- GLib `G_LOG_LEVEL_CRITICAL = 1 << 3`. -/
def G_LOG_LEVEL_CRITICAL : Nat := 8
/-- GLib `G_LOG_LEVEL_WARNING = 1 << 4`. -/
def G_LOG_LEVEL_WARNING : Nat := 16
/-- GLib `G_LOG_LEVEL_MESSAGE = 1 << 5`. -/
def G_LOG_LEVEL_MESSAGE : Nat := 32
/-- GLib `G_LOG_LEVEL_INFO = 1 << 6`. -/
def G_LOG_LEVEL_INFO : Nat := 64
/-- GLib `G_LOG_LEVEL_DEBUG = 1 << 7`. -/
def G_LOG_LEVEL_DEBUG : Nat := 128
/-- Value of libsigrok `SR_OK`. -/
def SR_OK : Int := 0
/-- Value of libsigrok `SR_ERR`. -/
def SR_ERR : Int := -1
/-- Value of libsigrok `SR_LOG_WARN`. -/
def SR_LOG_WARN : Int := 2

/-! ## Events -/

/-- The two standard streams a message could be written to. -/
inductive Stream where
  | stdout
  | stderr
  deriving DecidableEq

/-- Output kinds of libsigrokdecode, as passed to `srd_pd_output_callback_add`. -/
inductive OutputType where
  | SRD_OUTPUT_ANN
  | SRD_OUTPUT_BINARY
  | SRD_OUTPUT_META
  deriving DecidableEq

/-- Functions called from `main.c`. `set_options` is defined in `main.c` itself,
all others are external. -/
inductive Fn where
  | g_log_set_default_handler
  | parse_options
  | sr_log_loglevel_set
  | sr_init
  | srd_log_loglevel_set
  | srd_init
  | srd_session_new
  | register_pds
  | setup_pd_stack
  | setup_pd_binary
  | setup_pd_meta
  | setup_pd_annotations
  | srd_pd_output_callback_add (kind : OutputType)
  | show_version
  | show_dev_list
  | show_pd_detail
  | show_dev_detail
  | load_input_file
  | set_options
  | run_session
  | show_help
  | srd_exit
  | sr_exit
  | parse_generic_arg
  | device_scan
  | sr_dev_open
  | set_dev_options
  | sr_dev_close
  | g_slist_free
  | g_hash_table_destroy
  | parse_channelstring
  | g_slist_find
  | map_pd_channels
  deriving DecidableEq

/-- Observable events of a run, in chronological order in a trace. -/
inductive Event where
  /-- GLib hands a message to the installed handler `logger`. -/
  | log (log_domain : String) (log_level : Nat) (message : String)
  /-- The text is written to the stream: `fprintf(stream, "%s\n", message)`. -/
  | fprintf (stream : Stream) (text : String)
  /-- The stream is flushed: `fflush(stream)`. -/
  | fflush (stream : Stream)
  /-- Control enters the function. -/
  | call (f : Fn)
  /-- The function returns; `ok` is its success status (`true` for `void`). -/
  | ret (f : Fn) (ok : Bool)
  deriving DecidableEq

/-! ## `logger` (main.c lines 29-48) -/

/-- What one invocation of `logger` does: the stream operations it performs and
the status of `exit`, if it calls it. -/
structure LoggerResult where
  output : List Event
  exits : Option Int
  deriving DecidableEq

/-- Lines 39-40: the condition under which the message is printed. -/
def logger_writes (opt_loglevel : Int) (log_level : Nat) : Bool :=
  (log_level &&& (G_LOG_LEVEL_ERROR ||| G_LOG_LEVEL_CRITICAL ||| G_LOG_LEVEL_WARNING) != 0)
    || decide (opt_loglevel > SR_LOG_WARN)

/-- Line 45: the condition under which the process is terminated. -/
def logger_exits (log_level : Nat) : Bool :=
  log_level &&& (G_LOG_LEVEL_ERROR ||| G_LOG_LEVEL_CRITICAL) != 0

/-- The log handler `logger`; `log_domain` is ignored as in the source
(`(void)log_domain`). -/
def logger (opt_loglevel : Int) (log_domain : String) (log_level : Nat)
    (message : String) : LoggerResult :=
  let _ := log_domain
  { output :=
      if logger_writes opt_loglevel log_level then
        [Event.fprintf Stream.stderr (message ++ "\n"), Event.fflush Stream.stderr]
      else [],
    exits := if logger_exits log_level then some 1 else none }

/-! ## Options, world and process state -/

/-- The option globals set by `parse_options`, as far as `main.c` inspects them:
`opt_loglevel` by value, every other option by whether it is set (non-zero /
non-NULL). -/
structure Opts where
  opt_loglevel : Int
  opt_version : Bool
  opt_scan_devs : Bool
  opt_pds : Bool
  opt_pd_binary : Bool
  opt_pd_meta : Bool
  opt_pd_annotations : Bool
  opt_show : Bool
  opt_input_file : Bool
  opt_set : Bool
  opt_config : Bool
  opt_samples : Bool
  opt_time : Bool
  opt_frames : Bool
  opt_continuous : Bool
  opt_channels : Bool

/-- A message handed to the GLib logging facility. -/
structure LogMsg where
  log_domain : String
  log_level : Nat
  message : String

/-- Behaviour of the external calls in one run. -/
structure World where
  /-- Success status the call returns (`SR_OK`, `SRD_OK`, `0`, or a non-NULL
  pointer); ignored for `void` functions. -/
  ok : Fn → Bool
  /-- Messages the call hands to GLib logging while it runs, in order. -/
  logs : Fn → List LogMsg
  /-- Whether `sr_init` stored a non-NULL context through its argument. -/
  sr_init_ctx : Bool
  /-- Whether `srd_session_new` stored a non-NULL session through its argument. -/
  srd_session_new_sess : Bool

/-- The two globals of `main.c` (lines 24-27): whether each is non-NULL. -/
structure Globals where
  sr_ctx : Bool
  srd_sess : Bool
  deriving DecidableEq

/-- How a piece of code ends: it completes with a value and the globals it
leaves, or the process was terminated by `exit(status)`. -/
inductive Outcome (α : Type) where
  | cont (a : α) (g : Globals)
  | halt (status : Int)

/-- Result of running a piece of code: the events it produced, in order, and
how it ended. -/
structure Res (α : Type) where
  events : List Event
  out : Outcome α

/-- A piece of code acting on the globals. -/
def Proc (α : Type) : Type := Globals → Res α

/-- Sequencing: the second part runs only if the first did not terminate the process. -/
def Proc.bind {α β : Type} (p : Proc α) (k : α → Proc β) : Proc β := fun g =>
  match (p g).out with
  | Outcome.cont a g1 => { events := (p g).events ++ (k a g1).events, out := (k a g1).out }
  | Outcome.halt c => { events := (p g).events, out := Outcome.halt c }

instance : Monad Proc where
  pure a := fun g => { events := [], out := Outcome.cont a g }
  bind := Proc.bind

/-- Produce events. -/
def emit (evs : List Event) : Proc Unit := fun g =>
  { events := evs, out := Outcome.cont () g }

/-- GLib delivers one message to the default handler `logger`; the process ends
if `logger` calls `exit`. -/
def g_log (o : Opts) (m : LogMsg) : Proc Unit := fun g =>
  let r := logger o.opt_loglevel m.log_domain m.log_level m.message
  { events := Event.log m.log_domain m.log_level m.message :: r.output,
    out := match r.exits with
      | some c => Outcome.halt c
      | none => Outcome.cont () g }

/-- Deliver a sequence of messages in order. -/
def g_logs (o : Opts) : List LogMsg → Proc Unit
  | [] => pure ()
  | m :: ms => do
    g_log o m
    g_logs o ms

/-- GLib `g_critical(message)`: a message of level `G_LOG_LEVEL_CRITICAL`. -/
def g_critical (o : Opts) (message : String) : Proc Unit :=
  g_log o { log_domain := "", log_level := G_LOG_LEVEL_CRITICAL, message := message }

/-- An external call with a status: entry, the messages it logs, return. -/
def call (o : Opts) (w : World) (f : Fn) : Proc Bool := do
  emit [Event.call f]
  g_logs o (w.logs f)
  emit [Event.ret f (w.ok f)]
  pure (w.ok f)

/-- An external call of a `void` function (or one whose status is discarded). -/
def callv (o : Opts) (w : World) (f : Fn) : Proc Unit := do
  emit [Event.call f]
  g_logs o (w.logs f)
  emit [Event.ret f true]

/-- Read the global `sr_ctx`. -/
def get_sr_ctx : Proc Bool := fun g =>
  { events := [], out := Outcome.cont g.sr_ctx g }

/-- Line 119, `sr_init(&sr_ctx)`: the call, which may store a context. -/
def sr_init (o : Opts) (w : World) : Proc Bool := do
  emit [Event.call Fn.sr_init]
  g_logs o (w.logs Fn.sr_init)
  fun g => { events := [], out := Outcome.cont () { g with sr_ctx := w.sr_init_ctx } }
  emit [Event.ret Fn.sr_init (w.ok Fn.sr_init)]
  pure (w.ok Fn.sr_init)

/-- Line 130, `srd_session_new(&srd_sess)`: the call, which may store a session. -/
def srd_session_new (o : Opts) (w : World) : Proc Bool := do
  emit [Event.call Fn.srd_session_new]
  g_logs o (w.logs Fn.srd_session_new)
  fun g => { events := [], out := Outcome.cont () { g with srd_sess := w.srd_session_new_sess } }
  emit [Event.ret Fn.srd_session_new (w.ok Fn.srd_session_new)]
  pure (w.ok Fn.srd_session_new)

/-! ## `select_channels` (main.c lines 50-72) -/

/-- A libsigrok `struct sr_channel`: the flag `enabled`, which `select_channels`
writes, and its other data fields. -/
structure sr_channel where
  index : Int
  type : Int
  enabled : Bool
  name : String
  deriving DecidableEq

/-- A libsigrok `struct sr_dev_inst`, as far as `select_channels` reads it: the
list `channels` of the addresses of its channel structs, in list order. -/
structure sr_dev_inst where
  channels : List Nat
  deriving DecidableEq

/-- GLib `g_slist_find(list, data)`: whether some element of the list is the
pointer `data` (non-NULL result). -/
def g_slist_find (list : List Nat) (data : Nat) : Bool := decide (data ∈ list)

/-- Lines 59-65, the loop over `sdi->channels`: each channel struct gets
`enabled = TRUE` if its address is found in `selected_channels`, else `FALSE`. -/
def enable_selected (selected_channels : List Nat) :
    List Nat → (Nat → sr_channel) → (Nat → sr_channel)
  | [], mem => mem
  | ch :: l, mem =>
    enable_selected selected_channels l
      (Function.update mem ch { mem ch with enabled := g_slist_find selected_channels ch })

/-- What one call of `select_channels` leaves: the value returned, the memory of
channel structs, the device, and the functions it called, in order. -/
structure SelectResult where
  ret : Int
  mem : Nat → sr_channel
  sdi : sr_dev_inst
  calls : List Fn

/-- The function `select_channels`. `parsed` is the list that
`parse_channelstring(sdi, opt_channels)` returns (`[]` for `NULL`), `mem` the
memory of channel structs by address. The external functions
`parse_channelstring` and `map_pd_channels` are taken to leave the channel
structs as they are; the writes modelled are those of `select_channels` itself. -/
def select_channels (HAVE_SRD : Bool) (o : Opts) (parsed : List Nat) (sdi : sr_dev_inst)
    (mem : Nat → sr_channel) : SelectResult :=
  if o.opt_channels then
    if parsed.isEmpty then
      { ret := SR_ERR, mem := mem, sdi := sdi, calls := [Fn.parse_channelstring] }
    else
      { ret := SR_OK,
        mem := enable_selected parsed sdi.channels mem,
        sdi := sdi,
        calls := [Fn.parse_channelstring] ++ sdi.channels.map (fun _ => Fn.g_slist_find) ++
          [Fn.g_slist_free] ++ (if HAVE_SRD then [Fn.map_pd_channels] else []) }
  else
    { ret := SR_OK, mem := mem, sdi := sdi,
      calls := if HAVE_SRD then [Fn.map_pd_channels] else [] }

/-! ## `set_options` (main.c lines 74-105) -/

/-- Body of `set_options`. -/
def set_options (o : Opts) (w : World) : Proc Unit := do
  if !o.opt_config then
    g_critical o "No setting specified."
  else if !(← call o w Fn.parse_generic_arg) then
    pure ()
  else if !(← call o w Fn.device_scan) then
    g_critical o "No devices found."
  else if !(← call o w Fn.sr_dev_open) then
    g_critical o "Failed to open device."
  else do
    callv o w Fn.set_dev_options
    callv o w Fn.sr_dev_close
    callv o w Fn.g_slist_free
    callv o w Fn.g_hash_table_destroy

/-! ## `main` (main.c lines 107-192) -/

/-- Lines 128-159, the body of `if (opt_pds)`. The result is `false` when the
code executes `goto done`, `true` when control falls through. -/
def pd_setup (o : Opts) (w : World) : Proc Bool := do
  if !(← call o w Fn.srd_init) then pure false
  else if !(← srd_session_new o w) then do
    g_critical o "Failed to create new decode session."
    pure false
  else if !(← call o w Fn.register_pds) then pure false
  else if !(← call o w Fn.setup_pd_stack) then pure false
  else if o.opt_pd_binary then
    if !(← call o w Fn.setup_pd_binary) then pure false
    else if !(← call o w (Fn.srd_pd_output_callback_add OutputType.SRD_OUTPUT_BINARY)) then pure false
    else pure true
  else if o.opt_pd_meta then
    if !(← call o w Fn.setup_pd_meta) then pure false
    else if !(← call o w (Fn.srd_pd_output_callback_add OutputType.SRD_OUTPUT_META)) then pure false
    else pure true
  else do
    let annOk ← (if o.opt_pd_annotations then call o w Fn.setup_pd_annotations else pure true)
    if !annOk then pure false
    else if !(← call o w (Fn.srd_pd_output_callback_add OutputType.SRD_OUTPUT_ANN)) then pure false
    else pure true

/-- Lines 115-161. The result is `false` when the code executes `goto done`. -/
def setup (HAVE_SRD : Bool) (o : Opts) (w : World) : Proc Bool := do
  if !(← call o w Fn.sr_log_loglevel_set) then pure false
  else if !(← sr_init o w) then pure false
  else if HAVE_SRD then
    if !(← call o w Fn.srd_log_loglevel_set) then pure false
    else if o.opt_pds then pd_setup o w
    else pure true
  else pure true

/-- An action of the dispatcher that is defined outside `main.c`. -/
def action (o : Opts) (w : World) (f : Fn) : Proc Unit := callv o w f

/-- Lines 163-180, the dispatch chain. -/
def dispatch (HAVE_SRD : Bool) (o : Opts) (w : World) : Proc Unit :=
  if o.opt_version then action o w Fn.show_version
  else if o.opt_scan_devs then action o w Fn.show_dev_list
  else if HAVE_SRD && (o.opt_pds && o.opt_show) then action o w Fn.show_pd_detail
  else if o.opt_show then action o w Fn.show_dev_detail
  else if o.opt_input_file then action o w Fn.load_input_file
  else if o.opt_set then do
    emit [Event.call Fn.set_options]
    set_options o w
    emit [Event.ret Fn.set_options true]
  else if o.opt_samples || o.opt_time || o.opt_frames || o.opt_continuous then
    action o w Fn.run_session
  else action o w Fn.show_help

/-- Lines 187-191, the code at the label `done`. -/
def done (o : Opts) (w : World) : Proc Int := do
  if (← get_sr_ctx) then
    callv o w Fn.sr_exit
  pure 0

/-- The body of `main` as a piece of code; the value is the status returned. -/
def main_body (HAVE_SRD : Bool) (o : Opts) (w : World) : Proc Int := do
  emit [Event.call Fn.g_log_set_default_handler, Event.ret Fn.g_log_set_default_handler true]
  if !(← call o w Fn.parse_options) then pure 1
  else if !(← setup HAVE_SRD o w) then done o w
  else do
    dispatch HAVE_SRD o w
    if HAVE_SRD && o.opt_pds then
      callv o w Fn.srd_exit
    done o w

/-- How the process ended. -/
inductive Ending where
  /-- By `return status` from `main`. -/
  | returned (status : Int)
  /-- By `exit(status)`. -/
  | exited (status : Int)
  deriving DecidableEq

/-- A complete run. -/
structure Run where
  trace : List Event
  ending : Ending
  deriving DecidableEq

/-- How the process ends, given how the body of `main` ended. -/
def ending_of : Outcome Int → Ending
  | Outcome.cont status _ => Ending.returned status
  | Outcome.halt status => Ending.exited status

/-- One run of `main`, with `sr_ctx = NULL` and `srd_sess = NULL` initially
(lines 24-26). `HAVE_SRD` is the compile-time switch. -/
def main (HAVE_SRD : Bool) (o : Opts) (w : World) : Run :=
  let r := main_body HAVE_SRD o w { sr_ctx := false, srd_sess := false }
  { trace := r.events, ending := ending_of r.out }

/-! ## Observations on traces and auxiliary definitions -/

/-- The functions entered, in order. -/
def calls : List Event → List Fn
  | [] => []
  | Event.call f :: es => f :: calls es
  | _ :: es => calls es

/-- The eight top-level actions of the dispatcher. -/
def is_action : Fn → Bool
  | Fn.show_version | Fn.show_dev_list | Fn.show_pd_detail | Fn.show_dev_detail
  | Fn.load_input_file | Fn.set_options | Fn.run_session | Fn.show_help => true
  | _ => false

/-- The steps of the Resource Acquirer and of the Decoder Pipeline Builder. -/
def is_setup_step : Fn → Bool
  | Fn.sr_log_loglevel_set | Fn.sr_init | Fn.srd_log_loglevel_set | Fn.srd_init
  | Fn.srd_session_new | Fn.register_pds | Fn.setup_pd_stack | Fn.setup_pd_binary
  | Fn.setup_pd_meta | Fn.setup_pd_annotations | Fn.srd_pd_output_callback_add _ => true
  | _ => false

/-- Whether delivering the messages makes `logger` terminate the process. -/
def log_exits : List LogMsg → Bool
  | [] => false
  | m :: ms => logger_exits m.log_level || log_exits ms

/-- Events of delivering the messages, up to the first terminating one. -/
def log_events (o : Opts) : List LogMsg → List Event
  | [] => []
  | m :: ms =>
    Event.log m.log_domain m.log_level m.message ::
      ((logger o.opt_loglevel m.log_domain m.log_level m.message).output ++
        (if logger_exits m.log_level then [] else log_events o ms))

/-- The sink steps of lines 140-159, in order. -/
def sink_steps (o : Opts) : List Fn :=
  if o.opt_pd_binary then
    [Fn.setup_pd_binary, Fn.srd_pd_output_callback_add OutputType.SRD_OUTPUT_BINARY]
  else if o.opt_pd_meta then
    [Fn.setup_pd_meta, Fn.srd_pd_output_callback_add OutputType.SRD_OUTPUT_META]
  else
    (if o.opt_pd_annotations then [Fn.setup_pd_annotations] else []) ++
      [Fn.srd_pd_output_callback_add OutputType.SRD_OUTPUT_ANN]

/-- The fixed sequence of setup steps of one run, in the order of lines 115-160. -/
def setup_steps (HAVE_SRD : Bool) (o : Opts) : List Fn :=
  [Fn.sr_log_loglevel_set, Fn.sr_init] ++
    (if HAVE_SRD then
      Fn.srd_log_loglevel_set ::
        (if o.opt_pds then
          [Fn.srd_init, Fn.srd_session_new, Fn.register_pds, Fn.setup_pd_stack] ++ sink_steps o
        else [])
    else [])

/-- One setup step: the call, with what `main` does around it. -/
def step (o : Opts) (w : World) : Fn → Proc Bool
  | Fn.sr_init => sr_init o w
  | Fn.srd_session_new => do
    let r ← srd_session_new o w
    if !r then
      g_critical o "Failed to create new decode session."
    pure r
  | f => call o w f

/-- Run steps in order; stop with `false` at the first one that fails. -/
def run_steps (o : Opts) (w : World) : List Fn → Proc Bool
  | [] => pure true
  | f :: fs => do
    if !(← step o w f) then pure false else run_steps o w fs

/-- A step succeeds when it does not end the process and returns success. -/
def step_ok (w : World) (f : Fn) : Bool := !log_exits (w.logs f) && w.ok f

/-- The steps entered when running `fs`: up to and including the first that
does not succeed. -/
def entered (w : World) : List Fn → List Fn
  | [] => []
  | f :: fs => f :: (if step_ok w f then entered w fs else [])

/-- Globals after the given steps have been entered and have returned. -/
def globals_after (w : World) (fs : List Fn) (g : Globals) : Globals :=
  { sr_ctx := if Fn.sr_init ∈ fs then w.sr_init_ctx else g.sr_ctx,
    srd_sess := if Fn.srd_session_new ∈ fs then w.srd_session_new_sess else g.srd_sess }

/-- The first step of the sequence that does not succeed, if any. -/
def first_bad (w : World) (fs : List Fn) : Option Fn :=
  fs.find? (fun f => !step_ok w f)

/-- Globals after the step `f` returned. -/
def globals_step (w : World) (f : Fn) (g : Globals) : Globals :=
  { sr_ctx := if f = Fn.sr_init then w.sr_init_ctx else g.sr_ctx,
    srd_sess := if f = Fn.srd_session_new then w.srd_session_new_sess else g.srd_sess }

/-- The functions that occur in call and return events, in order. -/
def fns : List Event → List Fn
  | [] => []
  | Event.call f :: es => f :: fns es
  | Event.ret f _ :: es => f :: fns es
  | _ :: es => fns es

/-- The action the dispatch chain of lines 163-180 selects. -/
def selected_action (HAVE_SRD : Bool) (o : Opts) : Fn :=
  if o.opt_version then Fn.show_version
  else if o.opt_scan_devs then Fn.show_dev_list
  else if HAVE_SRD && (o.opt_pds && o.opt_show) then Fn.show_pd_detail
  else if o.opt_show then Fn.show_dev_detail
  else if o.opt_input_file then Fn.load_input_file
  else if o.opt_set then Fn.set_options
  else if o.opt_samples || o.opt_time || o.opt_frames || o.opt_continuous then Fn.run_session
  else Fn.show_help

/-- Functions occurring in the dispatch phase: the actions and what
`set_options` calls. -/
def is_dispatch_fn : Fn → Bool
  | Fn.parse_generic_arg | Fn.device_scan | Fn.sr_dev_open | Fn.set_dev_options
  | Fn.sr_dev_close | Fn.g_slist_free | Fn.g_hash_table_destroy => true
  | f => is_action f

/-- Lines 163-191: dispatch, then teardown. -/
def finish (HAVE_SRD : Bool) (o : Opts) (w : World) : Proc Int := do
  dispatch HAVE_SRD o w
  if HAVE_SRD && o.opt_pds then
    callv o w Fn.srd_exit
  done o w

/-- The events end with an invocation of `logger` that terminates the process:
the message handed to it, then everything `logger` wrote. -/
def ends_in_logger_exit (o : Opts) (evs : List Event) : Prop :=
  ∃ pre d lvl msg, logger_exits lvl = true ∧
    evs = pre ++ Event.log d lvl msg :: (logger o.opt_loglevel d lvl msg).output

/-- A piece of code that involves only functions of the set `S`, leaves the
globals alone, and can end the process only through `logger`, with status 1. -/
def Tame {α : Type} (o : Opts) (S : Fn → Bool) (p : Proc α) : Prop :=
  ∀ g, (∀ f ∈ fns (p g).events, S f = true) ∧
    (∀ c, (p g).out = Outcome.halt c → c = 1 ∧ ends_in_logger_exit o (p g).events) ∧
    (∀ a g1, (p g).out = Outcome.cont a g1 → g1 = g)

/-- Functions `set_options` calls. -/
def is_set_options_fn : Fn → Bool
  | Fn.parse_generic_arg | Fn.device_scan | Fn.sr_dev_open | Fn.set_dev_options
  | Fn.sr_dev_close | Fn.g_slist_free | Fn.g_hash_table_destroy => true
  | _ => false

/-- Functions occurring after the setup phase. -/
def is_tail_fn : Fn → Bool
  | Fn.srd_exit | Fn.sr_exit => true
  | f => is_dispatch_fn f

/-- The events before the setup phase when `parse_options` succeeds. -/
def prologue (o : Opts) (w : World) : List Event :=
  [Event.call Fn.g_log_set_default_handler, Event.ret Fn.g_log_set_default_handler true,
    Event.call Fn.parse_options] ++ log_events o (w.logs Fn.parse_options) ++
    [Event.ret Fn.parse_options true]

/-- The code after the setup phase: `done` after a `goto`, else dispatch and teardown. -/
def tail_proc (H : Bool) (o : Opts) (w : World) (b : Bool) : Proc Int :=
  if b then finish H o w else done o w

/-- Lines 182-191: the teardown after the dispatched action returned. -/
def teardown (HAVE_SRD : Bool) (o : Opts) (w : World) : Proc Int := do
  if HAVE_SRD && o.opt_pds then
    callv o w Fn.srd_exit
  done o w

/-- The globals when `main` starts (lines 24-27). -/
def initial_globals : Globals := { sr_ctx := false, srd_sess := false }

/-- The setup phase of one run of `main`. -/
def setup_res (H : Bool) (o : Opts) (w : World) : Res Bool :=
  run_steps o w (setup_steps H o) initial_globals

/-- The teardown functions. -/
def is_teardown_fn : Fn → Bool
  | Fn.srd_exit | Fn.sr_exit => true
  | _ => false

/-- Follows the spec's words (section 4.4, decoder support compiled in): the first
match in the order version, device scan, decoding together with a detail request,
detail request, input file, set-config, any capture trigger; usage help if none
matches. -/
def spec_action (o : Opts) : Fn :=
  if o.opt_version = true then Fn.show_version
  else if o.opt_scan_devs = true then Fn.show_dev_list
  else if o.opt_pds = true ∧ o.opt_show = true then Fn.show_pd_detail
  else if o.opt_show = true then Fn.show_dev_detail
  else if o.opt_input_file = true then Fn.load_input_file
  else if o.opt_set = true then Fn.set_options
  else if o.opt_samples = true ∨ o.opt_time = true ∨ o.opt_frames = true ∨
      o.opt_continuous = true then Fn.run_session
  else Fn.show_help

/-- Every setup step that is entered in the trace returns success in it. -/
def setup_succeeds (t : List Event) : Prop :=
  ∀ f ∈ calls t, is_setup_step f = true → Event.ret f true ∈ t

instance (t : List Event) : Decidable (setup_succeeds t) := by
  unfold setup_succeeds
  infer_instance

/-- Options with nothing requested and the default verbosity. -/
def opts_none : Opts :=
  { opt_loglevel := 2, opt_version := false, opt_scan_devs := false, opt_pds := false,
    opt_pd_binary := false, opt_pd_meta := false, opt_pd_annotations := false,
    opt_show := false, opt_input_file := false, opt_set := false, opt_config := false,
    opt_samples := false, opt_time := false, opt_frames := false, opt_continuous := false,
    opt_channels := false }

/-- A world in which every external call succeeds and logs nothing. -/
def world_ok : World :=
  { ok := fun _ => true, logs := fun _ => [], sr_init_ctx := true,
    srd_session_new_sess := true }

/-- A world in which exactly the call `f` returns failure. -/
def world_failing (f : Fn) : World :=
  { world_ok with ok := fun x => decide (x ≠ f) }

/-- Decoding and detail requested. -/
def opts_pds_show : Opts := { opts_none with opt_pds := true, opt_show := true }

/-- The functions entered after the setup phase of a run. -/
def tail_calls (H : Bool) (o : Opts) (w : World) : List Fn :=
  match first_bad w (setup_steps H o) with
  | none => calls (finish H o w (globals_after w (setup_steps H o) initial_globals)).events
  | some f =>
    if log_exits (w.logs f) = true ∨ f = Fn.srd_session_new then []
    else calls (done o w (globals_after w (entered w (setup_steps H o)) initial_globals)).events

/-- The functions of the decoder pipeline: context, session, registration,
stack, sink validation, callback registration and shutdown. -/
def is_decoder_pipeline_fn : Fn → Bool
  | Fn.srd_init | Fn.srd_session_new | Fn.register_pds | Fn.setup_pd_stack
  | Fn.setup_pd_binary | Fn.setup_pd_meta | Fn.setup_pd_annotations
  | Fn.srd_pd_output_callback_add _ | Fn.srd_exit => true
  | _ => false

/-- Whether the function is `srd_pd_output_callback_add`, of any kind. -/
def is_callback_add : Fn → Bool
  | Fn.srd_pd_output_callback_add _ => true
  | _ => false

/-- Follows the spec's words (section 4.3, step 3): a binary-output request beats a
meta-output request, which beats the default annotation output. -/
def spec_sink (o : Opts) : OutputType :=
  if o.opt_pd_binary = true then OutputType.SRD_OUTPUT_BINARY
  else if o.opt_pd_meta = true then OutputType.SRD_OUTPUT_META
  else OutputType.SRD_OUTPUT_ANN

/-- Every setup step other than the callback registration that is entered in the
trace returns success in it. -/
def steps_before_callback_succeed (t : List Event) : Prop :=
  ∀ f ∈ calls t, is_setup_step f = true → is_callback_add f = false → Event.ret f true ∈ t

instance (t : List Event) : Decidable (steps_before_callback_succeed t) := by
  unfold steps_before_callback_succeed
  infer_instance

/-- Decoding with a binary output requested. -/
def opts_pds_binary : Opts := { opts_none with opt_pds := true, opt_pd_binary := true }

/-- The trace ends with an invocation of `logger` on a message whose level has the
fatal (`G_LOG_LEVEL_ERROR`) or the critical bit set, in which `logger` calls
`exit(1)` after whatever it wrote. -/
def terminated_by_logger (o : Opts) (t : List Event) : Prop :=
  ∃ pre d lvl msg,
    (lvl &&& G_LOG_LEVEL_ERROR ≠ 0 ∨ lvl &&& G_LOG_LEVEL_CRITICAL ≠ 0) ∧
    (logger o.opt_loglevel d lvl msg).exits = some 1 ∧
    t = pre ++ Event.log d lvl msg :: (logger o.opt_loglevel d lvl msg).output

/-- The status with which the process ended. -/
def Ending.status : Ending → Int
  | Ending.returned status => status
  | Ending.exited status => status

/-- Version, detail and decoding requested together. -/
def opts_version_pds_show : Opts :=
  { opts_none with opt_version := true, opt_pds := true, opt_show := true }

/-- Only the version requested. -/
def opts_version : Opts := { opts_none with opt_version := true }

/-- Options with only a channel selection given. -/
def opts_channels : Opts := { opts_none with opt_channels := true }

/-- A memory in which every channel struct is enabled. -/
def mem_all_enabled : Nat → sr_channel :=
  fun a => { index := a, type := 0, enabled := true, name := "ch" }

/-- Set-config requested with a setting. -/
def opts_set : Opts := { opts_none with opt_set := true, opt_config := true }

/-- Only the device scan requested. -/
def opts_scan : Opts := { opts_none with opt_scan_devs := true }

/-- Decoding requested, nothing else. -/
def opts_pds : Opts := { opts_none with opt_pds := true }

/-- A world in which every external call succeeds and only the call `f` logs a
message, of level `G_LOG_LEVEL_CRITICAL`. -/
def world_critical_in (f : Fn) : World :=
  { world_ok with
    logs := fun x =>
      if x = f then [LogMsg.mk "lib" G_LOG_LEVEL_CRITICAL "assertion failed"] else [] }

/-- A world in which every external call succeeds and logs nothing, but `sr_init`
stores no context through its argument. -/
def world_no_context : World := { world_ok with sr_init_ctx := false }

/-- A world in which exactly `srd_init` returns failure and `sr_exit` logs a message
of level `G_LOG_LEVEL_CRITICAL`. -/
def world_srd_init_fails_exit_critical : World :=
  { world_critical_in Fn.sr_exit with ok := fun x => decide (x ≠ Fn.srd_init) }

/-- A world in which exactly `srd_init` returns failure and `sr_init` stores no
context through its argument. -/
def world_srd_init_fails_no_context : World :=
  { world_failing Fn.srd_init with sr_init_ctx := false }

/-! ## Lemmas and theorems -/

theorem bind_def {α β : Type} (p : Proc α) (k : α → Proc β) : (p >>= k) = Proc.bind p k := rfl

theorem pure_def {α : Type} (a : α) :
    (pure a : Proc α) = fun g => { events := [], out := Outcome.cont a g } := rfl

theorem ite_app {α : Type} (c : Prop) [Decidable c] (A B : Proc α) (g : Globals) :
    (if c then A else B) g = if c then A g else B g := by
  split_ifs <;> rfl

theorem g_logs_eq (o : Opts) (ms : List LogMsg) (g : Globals) :
    g_logs o ms g =
      { events := log_events o ms,
        out := if log_exits ms then Outcome.halt 1 else Outcome.cont () g } := by
  induction ms with
  | nil => simp [g_logs, log_exits, log_events, pure_def]
  | cons m ms ih =>
    simp only [g_logs, bind_def, Proc.bind, g_log, log_exits, log_events]
    by_cases h : logger_exits m.log_level
    · simp [logger, h]
    · simp [logger, h, ih]

theorem call_eq (o : Opts) (w : World) (f : Fn) (g : Globals) :
    call o w f g =
      if log_exits (w.logs f) then
        { events := Event.call f :: log_events o (w.logs f), out := Outcome.halt 1 }
      else
        { events := Event.call f :: (log_events o (w.logs f) ++ [Event.ret f (w.ok f)]),
          out := Outcome.cont (w.ok f) g } := by
  simp only [call, bind_def, Proc.bind, emit, g_logs_eq, pure_def]
  split_ifs <;> simp

theorem callv_eq (o : Opts) (w : World) (f : Fn) (g : Globals) :
    callv o w f g =
      if log_exits (w.logs f) then
        { events := Event.call f :: log_events o (w.logs f), out := Outcome.halt 1 }
      else
        { events := Event.call f :: (log_events o (w.logs f) ++ [Event.ret f true]),
          out := Outcome.cont () g } := by
  simp only [callv, bind_def, Proc.bind, emit, g_logs_eq]
  split_ifs <;> simp

theorem sr_init_eq (o : Opts) (w : World) (g : Globals) :
    sr_init o w g =
      if log_exits (w.logs Fn.sr_init) then
        { events := Event.call Fn.sr_init :: log_events o (w.logs Fn.sr_init),
          out := Outcome.halt 1 }
      else
        { events := Event.call Fn.sr_init ::
            (log_events o (w.logs Fn.sr_init) ++ [Event.ret Fn.sr_init (w.ok Fn.sr_init)]),
          out := Outcome.cont (w.ok Fn.sr_init) { g with sr_ctx := w.sr_init_ctx } } := by
  simp only [sr_init, bind_def, Proc.bind, emit, g_logs_eq, pure_def]
  split_ifs <;> simp

theorem srd_session_new_eq (o : Opts) (w : World) (g : Globals) :
    srd_session_new o w g =
      if log_exits (w.logs Fn.srd_session_new) then
        { events := Event.call Fn.srd_session_new :: log_events o (w.logs Fn.srd_session_new),
          out := Outcome.halt 1 }
      else
        { events := Event.call Fn.srd_session_new ::
            (log_events o (w.logs Fn.srd_session_new) ++
              [Event.ret Fn.srd_session_new (w.ok Fn.srd_session_new)]),
          out := Outcome.cont (w.ok Fn.srd_session_new)
            { g with srd_sess := w.srd_session_new_sess } } := by
  simp only [srd_session_new, bind_def, Proc.bind, emit, g_logs_eq, pure_def]
  split_ifs <;> simp

theorem g_critical_eq (o : Opts) (message : String) (g : Globals) :
    g_critical o message g =
      { events := Event.log "" G_LOG_LEVEL_CRITICAL message ::
          (logger o.opt_loglevel "" G_LOG_LEVEL_CRITICAL message).output,
        out := Outcome.halt 1 } := by
  have h : logger_exits G_LOG_LEVEL_CRITICAL = true := by decide
  simp [g_critical, g_log, logger, h]

theorem calls_append (xs ys : List Event) : calls (xs ++ ys) = calls xs ++ calls ys := by
  induction xs with
  | nil => rfl
  | cons e es ih => cases e <;> simp [calls, ih]

theorem mem_calls (f : Fn) (evs : List Event) : f ∈ calls evs ↔ Event.call f ∈ evs := by
  induction evs with
  | nil => simp [calls]
  | cons e es ih => cases e <;> simp [calls, ih]

theorem calls_logger_output (lvl : Int) (d : String) (n : Nat) (m : String) :
    calls (logger lvl d n m).output = [] := by
  simp only [logger]
  split_ifs <;> rfl

theorem calls_log_events (o : Opts) (ms : List LogMsg) : calls (log_events o ms) = [] := by
  induction ms with
  | nil => rfl
  | cons m ms ih =>
    simp only [log_events, calls, calls_append, calls_logger_output]
    split_ifs <;> simp [calls, ih]

theorem ret_not_mem_logger_output (lvl : Int) (d : String) (n : Nat) (m : String) (f : Fn)
    (b : Bool) : Event.ret f b ∉ (logger lvl d n m).output := by
  simp only [logger]
  split_ifs <;> simp

theorem ret_not_mem_log_events (o : Opts) (ms : List LogMsg) (f : Fn) (b : Bool) :
    Event.ret f b ∉ log_events o ms := by
  induction ms with
  | nil => simp [log_events]
  | cons m ms ih =>
    simp only [log_events, List.mem_cons, List.mem_append, not_or]
    refine ⟨by simp, ret_not_mem_logger_output _ _ _ _ _ _, ?_⟩
    split_ifs
    · simp
    · exact ih

theorem call_not_mem_log_events (o : Opts) (ms : List LogMsg) (f : Fn) :
    Event.call f ∉ log_events o ms := by
  rw [← mem_calls, calls_log_events]
  simp

theorem step_eq (o : Opts) (w : World) (f : Fn) (g : Globals) :
    step o w f g =
      if log_exits (w.logs f) then
        { events := Event.call f :: log_events o (w.logs f), out := Outcome.halt 1 }
      else if f = Fn.srd_session_new ∧ w.ok f = false then
        { events := Event.call f :: (log_events o (w.logs f) ++ Event.ret f false ::
            Event.log "" G_LOG_LEVEL_CRITICAL "Failed to create new decode session." ::
            (logger o.opt_loglevel "" G_LOG_LEVEL_CRITICAL
              "Failed to create new decode session.").output),
          out := Outcome.halt 1 }
      else
        { events := Event.call f :: (log_events o (w.logs f) ++ [Event.ret f (w.ok f)]),
          out := Outcome.cont (w.ok f)
            { sr_ctx := if f = Fn.sr_init then w.sr_init_ctx else g.sr_ctx,
              srd_sess := if f = Fn.srd_session_new then w.srd_session_new_sess
                else g.srd_sess } } := by
  by_cases h : log_exits (w.logs f) = true <;> cases hk : w.ok f <;> cases f <;>
    simp [step, call_eq, sr_init_eq, srd_session_new_eq, g_critical_eq, bind_def, Proc.bind,
      pure_def, h, hk]

theorem run_steps_nil (o : Opts) (w : World) : run_steps o w [] = pure true := rfl

theorem run_steps_cons (o : Opts) (w : World) (f : Fn) (fs : List Fn) :
    run_steps o w (f :: fs) =
      step o w f >>= fun r => if (!r) = true then pure false else run_steps o w fs := rfl

theorem pure_bind_proc {α β : Type} (a : α) (k : α → Proc β) : (pure a >>= k) = k a := by
  funext g
  simp [bind_def, Proc.bind, pure_def]

theorem session_step (o : Opts) (w : World) (X : Proc Bool) :
    (srd_session_new o w >>= fun r =>
      if (!r) = true then
        (g_critical o "Failed to create new decode session." >>= fun _ => pure false)
      else X) =
    (step o w Fn.srd_session_new >>= fun r => if (!r) = true then pure false else X) := by
  funext g
  simp only [step, bind_def, Proc.bind, srd_session_new_eq, g_critical_eq, pure_def]
  by_cases h : log_exits (w.logs Fn.srd_session_new) = true <;>
    cases hk : w.ok Fn.srd_session_new <;>
    simp [h, hk, Proc.bind, g_critical_eq]

theorem pd_setup_eq (o : Opts) (w : World) :
    pd_setup o w =
      run_steps o w ([Fn.srd_init, Fn.srd_session_new, Fn.register_pds, Fn.setup_pd_stack] ++
        sink_steps o) := by
  have hs : ∀ f, f ≠ Fn.sr_init → f ≠ Fn.srd_session_new → step o w f = call o w f := by
    intro f h1 h2
    cases f <;> first | rfl | exact absurd rfl h1 | exact absurd rfl h2
  cases h2 : o.opt_pd_binary <;> cases h3 : o.opt_pd_meta <;> cases h4 : o.opt_pd_annotations <;>
    simp only [pd_setup, sink_steps, h2, h3, h4, ↓reduceIte, List.cons_append, List.nil_append,
      Bool.false_eq_true, run_steps_cons, run_steps_nil, session_step, pure_bind_proc] <;>
    simp [hs]

theorem setup_eq (H : Bool) (o : Opts) (w : World) :
    setup H o w = run_steps o w (setup_steps H o) := by
  have hs : ∀ f, f ≠ Fn.sr_init → f ≠ Fn.srd_session_new → step o w f = call o w f := by
    intro f h1 h2
    cases f <;> first | rfl | exact absurd rfl h1 | exact absurd rfl h2
  have hi : step o w Fn.sr_init = sr_init o w := rfl
  cases H <;> cases h1 : o.opt_pds <;>
    simp only [setup, setup_steps, h1, ↓reduceIte, List.cons_append, List.nil_append,
      Bool.false_eq_true, run_steps_cons, run_steps_nil, pd_setup_eq] <;>
    simp [hs, hi]

theorem entered_initial (w : World) (fs : List Fn) : entered w fs <+: fs := by
  induction fs with
  | nil => exact ⟨[], rfl⟩
  | cons f fs ih =>
    obtain ⟨t, ht⟩ := ih
    simp only [entered]
    split_ifs
    · exact ⟨t, by simp [ht]⟩
    · exact ⟨fs, by simp⟩

theorem entered_of_all_ok (w : World) (fs : List Fn) (h : first_bad w fs = none) :
    entered w fs = fs := by
  induction fs with
  | nil => rfl
  | cons f fs ih =>
    simp only [first_bad, List.find?_cons] at h
    cases hk : step_ok w f
    · simp [hk] at h
    · simp only [hk, Bool.not_true] at h
      simp [entered, hk, ih h]

theorem first_bad_of_mem_entered (w : World) (fs : List Fn) (f : Fn) (hf : f ∈ entered w fs)
    (hbad : step_ok w f = false) : first_bad w fs = some f := by
  induction fs with
  | nil => simp [entered] at hf
  | cons a fs ih =>
    simp only [entered, List.mem_cons] at hf
    cases hk : step_ok w a
    · simp only [hk, Bool.false_eq_true, ↓reduceIte, List.not_mem_nil, or_false] at hf
      subst hf
      simp [first_bad, List.find?_cons, hk]
    · simp only [hk, ↓reduceIte] at hf
      rcases hf with rfl | hf
      · rw [hk] at hbad
        cases hbad
      · have := ih hf
        simp only [first_bad] at this
        simp [first_bad, List.find?_cons, hk, this]

theorem first_bad_mem_entered (w : World) (fs : List Fn) (f : Fn) (h : first_bad w fs = some f) :
    f ∈ entered w fs ∧ step_ok w f = false := by
  induction fs with
  | nil => simp [first_bad] at h
  | cons a fs ih =>
    simp only [first_bad, List.find?_cons] at h
    cases hk : step_ok w a
    · simp only [hk, Bool.not_false, Option.some.injEq] at h
      subst h
      simp [entered, hk]
    · simp only [hk, Bool.not_true] at h
      have := ih h
      simp [entered, hk, this]

theorem run_steps_exit (o : Opts) (w : World) (f : Fn) (fs : List Fn) (g : Globals)
    (h : log_exits (w.logs f) = true) :
    run_steps o w (f :: fs) g =
      { events := Event.call f :: log_events o (w.logs f), out := Outcome.halt 1 } := by
  simp [run_steps_cons, bind_def, Proc.bind, step_eq, h]

theorem run_steps_session_fail (o : Opts) (w : World) (fs : List Fn) (g : Globals)
    (h : log_exits (w.logs Fn.srd_session_new) = false)
    (hk : w.ok Fn.srd_session_new = false) :
    run_steps o w (Fn.srd_session_new :: fs) g =
      { events := Event.call Fn.srd_session_new ::
          (log_events o (w.logs Fn.srd_session_new) ++ Event.ret Fn.srd_session_new false ::
            Event.log "" G_LOG_LEVEL_CRITICAL "Failed to create new decode session." ::
            (logger o.opt_loglevel "" G_LOG_LEVEL_CRITICAL
              "Failed to create new decode session.").output),
        out := Outcome.halt 1 } := by
  simp [run_steps_cons, bind_def, Proc.bind, step_eq, h, hk]

theorem run_steps_fail (o : Opts) (w : World) (f : Fn) (fs : List Fn) (g : Globals)
    (h : log_exits (w.logs f) = false) (hk : w.ok f = false) (hs : f ≠ Fn.srd_session_new) :
    run_steps o w (f :: fs) g =
      { events := Event.call f :: (log_events o (w.logs f) ++ [Event.ret f false]),
        out := Outcome.cont false (globals_step w f g) } := by
  simp [run_steps_cons, bind_def, Proc.bind, step_eq, h, hk, hs, pure_def, globals_step]

theorem run_steps_ok (o : Opts) (w : World) (f : Fn) (fs : List Fn) (g : Globals)
    (h : log_exits (w.logs f) = false) (hk : w.ok f = true) :
    run_steps o w (f :: fs) g =
      { events := Event.call f :: (log_events o (w.logs f) ++ [Event.ret f true]) ++
          (run_steps o w fs (globals_step w f g)).events,
        out := (run_steps o w fs (globals_step w f g)).out } := by
  simp [run_steps_cons, bind_def, Proc.bind, step_eq, h, hk, globals_step]

theorem step_cases (w : World) (f : Fn) :
    log_exits (w.logs f) = true ∨
    (log_exits (w.logs f) = false ∧ w.ok f = false ∧ f = Fn.srd_session_new) ∨
    (log_exits (w.logs f) = false ∧ w.ok f = false ∧ f ≠ Fn.srd_session_new) ∨
    (log_exits (w.logs f) = false ∧ w.ok f = true) := by
  cases log_exits (w.logs f) <;> cases w.ok f <;> by_cases h : f = Fn.srd_session_new <;>
    simp [h]

theorem run_steps_calls (o : Opts) (w : World) (fs : List Fn) (g : Globals) :
    calls (run_steps o w fs g).events = entered w fs := by
  induction fs generalizing g with
  | nil => rfl
  | cons f fs ih =>
    rcases step_cases w f with h | ⟨h, hk, rfl⟩ | ⟨h, hk, hs⟩ | ⟨h, hk⟩
    · simp [run_steps_exit o w f fs g h, entered, step_ok, h, calls, calls_log_events]
    · simp [run_steps_session_fail o w fs g h hk, entered, step_ok, h, hk, calls, calls_append,
        calls_log_events, calls_logger_output]
    · simp [run_steps_fail o w f fs g h hk hs, entered, step_ok, h, hk, calls, calls_append,
        calls_log_events]
    · simp [run_steps_ok o w f fs g h hk, entered, step_ok, h, hk, calls, calls_append,
        calls_log_events, ih]

theorem run_steps_ret (o : Opts) (w : World) (fs : List Fn) (g : Globals) (f : Fn) (b : Bool)
    (hmem : Event.ret f b ∈ (run_steps o w fs g).events) :
    f ∈ entered w fs ∧ log_exits (w.logs f) = false ∧ b = w.ok f := by
  induction fs generalizing g with
  | nil => simp [run_steps_nil, pure_def] at hmem
  | cons a fs ih =>
    rcases step_cases w a with h | ⟨h, hk, rfl⟩ | ⟨h, hk, hs⟩ | ⟨h, hk⟩
    · simp [run_steps_exit o w a fs g h, ret_not_mem_log_events] at hmem
    · simp only [run_steps_session_fail o w fs g h hk, List.mem_cons, List.mem_append,
        ret_not_mem_log_events, ret_not_mem_logger_output, reduceCtorEq, false_or, or_false,
        Event.ret.injEq] at hmem
      obtain ⟨rfl, rfl⟩ := hmem
      simp [entered, h, hk]
    · simp only [run_steps_fail o w a fs g h hk hs, List.mem_cons, List.mem_append,
        ret_not_mem_log_events, reduceCtorEq, false_or, or_false, List.mem_singleton,
        List.not_mem_nil, Event.ret.injEq] at hmem
      obtain ⟨rfl, rfl⟩ := hmem
      simp [entered, h, hk]
    · simp only [run_steps_ok o w a fs g h hk, List.mem_cons, List.mem_append,
        ret_not_mem_log_events, reduceCtorEq, false_or, or_false, List.mem_singleton,
        List.not_mem_nil, Event.ret.injEq, List.cons_append, List.append_assoc,
        List.nil_append] at hmem
      rcases hmem with ⟨rfl, rfl⟩ | hmem
      · simp [entered, h, hk]
      · have := ih _ hmem
        simp [entered, step_ok, h, hk, this]

theorem globals_after_cons (w : World) (f : Fn) (fs : List Fn) (g : Globals) :
    globals_after w fs (globals_step w f g) = globals_after w (f :: fs) g := by
  simp only [globals_after, globals_step, List.mem_cons]
  by_cases h1 : f = Fn.sr_init <;> by_cases h2 : f = Fn.srd_session_new <;>
    by_cases h3 : Fn.sr_init ∈ fs <;> by_cases h4 : Fn.srd_session_new ∈ fs <;>
    simp_all [eq_comm]

theorem run_steps_out (o : Opts) (w : World) (fs : List Fn) (g : Globals) :
    (run_steps o w fs g).out =
      match first_bad w fs with
      | none => Outcome.cont true (globals_after w fs g)
      | some f =>
        if log_exits (w.logs f) = true ∨ f = Fn.srd_session_new then Outcome.halt 1
        else Outcome.cont false (globals_after w (entered w fs) g) := by
  induction fs generalizing g with
  | nil => simp [run_steps_nil, pure_def, first_bad, globals_after]
  | cons a fs ih =>
    rcases step_cases w a with h | ⟨h, hk, rfl⟩ | ⟨h, hk, hs⟩ | ⟨h, hk⟩
    · simp [run_steps_exit o w a fs g h, first_bad, List.find?_cons, step_ok, h]
    · simp [run_steps_session_fail o w fs g h hk, first_bad, List.find?_cons, step_ok, h, hk]
    · have hs2 : ¬Fn.srd_session_new = a := fun e => hs e.symm
      simp [run_steps_fail o w a fs g h hk hs, first_bad, List.find?_cons, step_ok, h, hk, hs,
        hs2, entered, globals_after, globals_step, eq_comm]
    · have hfb : first_bad w (a :: fs) = first_bad w fs := by
        simp [first_bad, List.find?_cons, step_ok, h, hk]
      have hen : entered w (a :: fs) = a :: entered w fs := by
        simp [entered, step_ok, h, hk]
      simp only [run_steps_ok o w a fs g h hk, ih, hfb, hen, globals_after_cons]

theorem fns_append (xs ys : List Event) : fns (xs ++ ys) = fns xs ++ fns ys := by
  induction xs with
  | nil => rfl
  | cons e es ih => cases e <;> simp [fns, ih]

theorem mem_fns_of_call (f : Fn) (evs : List Event) (h : Event.call f ∈ evs) : f ∈ fns evs := by
  induction evs with
  | nil => simp at h
  | cons e es ih =>
    rcases List.mem_cons.mp h with rfl | h2
    · simp [fns]
    · cases e <;> simp [fns, ih h2]

theorem mem_fns_of_ret (f : Fn) (b : Bool) (evs : List Event) (h : Event.ret f b ∈ evs) :
    f ∈ fns evs := by
  induction evs with
  | nil => simp at h
  | cons e es ih =>
    rcases List.mem_cons.mp h with rfl | h2
    · simp [fns]
    · cases e <;> simp [fns, ih h2]

theorem fns_logger_output (lvl : Int) (d : String) (n : Nat) (m : String) :
    fns (logger lvl d n m).output = [] := by
  simp only [logger]
  split_ifs <;> rfl

theorem fns_log_events (o : Opts) (ms : List LogMsg) : fns (log_events o ms) = [] := by
  induction ms with
  | nil => rfl
  | cons m ms ih =>
    simp only [log_events, fns, fns_append, fns_logger_output]
    split_ifs <;> simp [fns, ih]

theorem ends_in_logger_exit_append (o : Opts) (xs ys : List Event)
    (h : ends_in_logger_exit o ys) : ends_in_logger_exit o (xs ++ ys) := by
  obtain ⟨pre, d, lvl, msg, hl, rfl⟩ := h
  exact ⟨xs ++ pre, d, lvl, msg, hl, by simp⟩

theorem ends_in_logger_exit_cons (o : Opts) (x : Event) (ys : List Event)
    (h : ends_in_logger_exit o ys) : ends_in_logger_exit o (x :: ys) :=
  ends_in_logger_exit_append o [x] ys h

theorem log_events_exit (o : Opts) (ms : List LogMsg) (h : log_exits ms = true) :
    ends_in_logger_exit o (log_events o ms) := by
  induction ms with
  | nil => simp [log_exits] at h
  | cons m ms ih =>
    simp only [log_events]
    by_cases hx : logger_exits m.log_level = true
    · exact ⟨[], m.log_domain, m.log_level, m.message, hx, by simp [hx]⟩
    · simp only [log_exits, hx, Bool.false_or] at h
      simp only [hx, Bool.false_eq_true, ↓reduceIte]
      rw [← List.cons_append]
      exact ends_in_logger_exit_append o _ _ (ih h)

theorem g_critical_exit (o : Opts) (message : String) :
    ends_in_logger_exit o (Event.log "" G_LOG_LEVEL_CRITICAL message ::
      (logger o.opt_loglevel "" G_LOG_LEVEL_CRITICAL message).output) :=
  ⟨[], "", G_LOG_LEVEL_CRITICAL, message, by decide, by simp⟩

theorem Tame.bind {α β : Type} {o : Opts} {S : Fn → Bool} {p : Proc α} {k : α → Proc β}
    (hp : Tame o S p) (hk : ∀ a, Tame o S (k a)) : Tame o S (p >>= k) := by
  intro g
  obtain ⟨hp1, hp2, hp3⟩ := hp g
  simp only [bind_def, Proc.bind]
  cases hout : (p g).out with
  | halt c =>
    simp only [hout] at hp2 ⊢
    exact ⟨hp1, fun c1 hc => by cases hc; exact hp2 c rfl, fun a g1 hc => by cases hc⟩
  | cont a g1 =>
    obtain rfl := hp3 a g1 hout
    obtain ⟨hk1, hk2, hk3⟩ := hk a g1
    refine ⟨?_, ?_, hk3⟩
    · intro f hf
      simp only [fns_append, List.mem_append] at hf
      rcases hf with hf | hf
      · exact hp1 f hf
      · exact hk1 f hf
    · intro c hc
      exact ⟨(hk2 c hc).1, ends_in_logger_exit_append o _ _ (hk2 c hc).2⟩

theorem Tame.pure {α : Type} {o : Opts} {S : Fn → Bool} (a : α) : Tame o S (pure a : Proc α) := by
  intro g
  simp [pure_def, fns]

theorem Tame.emit_call {o : Opts} {S : Fn → Bool} (f : Fn) (h : S f = true) :
    Tame o S (emit [Event.call f]) := by
  intro g
  simp [emit, fns, h]

theorem Tame.emit_ret {o : Opts} {S : Fn → Bool} (f : Fn) (b : Bool) (h : S f = true) :
    Tame o S (emit [Event.ret f b]) := by
  intro g
  simp [emit, fns, h]

theorem Tame.g_critical {o : Opts} {S : Fn → Bool} (message : String) :
    Tame o S (g_critical o message) := by
  intro g
  simp only [g_critical_eq]
  refine ⟨by simp [fns, fns_logger_output], fun c hc => ?_, fun a g1 hc => by cases hc⟩
  cases hc
  exact ⟨rfl, g_critical_exit o message⟩

theorem Tame.call {o : Opts} {S : Fn → Bool} (w : World) (f : Fn) (h : S f = true) :
    Tame o S (call o w f) := by
  intro g
  rw [call_eq]
  by_cases hx : log_exits (w.logs f) = true
  · simp only [hx, ↓reduceIte]
    refine ⟨by simp [fns, fns_log_events, h], fun c hc => ?_, fun a g1 hc => by cases hc⟩
    cases hc
    exact ⟨rfl, ends_in_logger_exit_cons o _ _ (log_events_exit o _ hx)⟩
  · simp only [hx, Bool.false_eq_true, ↓reduceIte]
    refine ⟨by simp [fns, fns_append, fns_log_events, h], fun c hc => (by cases hc),
      fun a g1 hc => ?_⟩
    cases hc
    rfl

theorem Tame.callv {o : Opts} {S : Fn → Bool} (w : World) (f : Fn) (h : S f = true) :
    Tame o S (callv o w f) := by
  intro g
  rw [callv_eq]
  by_cases hx : log_exits (w.logs f) = true
  · simp only [hx, ↓reduceIte]
    refine ⟨by simp [fns, fns_log_events, h], fun c hc => ?_, fun a g1 hc => by cases hc⟩
    cases hc
    exact ⟨rfl, ends_in_logger_exit_cons o _ _ (log_events_exit o _ hx)⟩
  · simp only [hx, Bool.false_eq_true, ↓reduceIte]
    refine ⟨by simp [fns, fns_append, fns_log_events, h], fun c hc => (by cases hc),
      fun a g1 hc => ?_⟩
    cases hc
    rfl

theorem Tame.ite {α : Type} {o : Opts} {S : Fn → Bool} (c : Prop) [Decidable c]
    {p q : Proc α} (hp : Tame o S p) (hq : Tame o S q) : Tame o S (if c then p else q) := by
  split_ifs
  · exact hp
  · exact hq

theorem Tame.mono {α : Type} {o : Opts} {S T : Fn → Bool} {p : Proc α}
    (h : ∀ f, S f = true → T f = true) (hp : Tame o S p) : Tame o T p := by
  intro g
  obtain ⟨h1, h2, h3⟩ := hp g
  exact ⟨fun f hf => h f (h1 f hf), h2, h3⟩

theorem set_options_tame (o : Opts) (w : World) :
    Tame o is_set_options_fn (set_options o w) := by
  unfold set_options
  refine Tame.ite _ (Tame.g_critical _) (Tame.bind (Tame.call w _ rfl) fun r1 => ?_)
  refine Tame.ite _ (Tame.pure _) (Tame.bind (Tame.call w _ rfl) fun r2 => ?_)
  refine Tame.ite _ (Tame.g_critical _) (Tame.bind (Tame.call w _ rfl) fun r3 => ?_)
  refine Tame.ite _ (Tame.g_critical _) ?_
  exact Tame.bind (Tame.callv w _ rfl) fun _ => Tame.bind (Tame.callv w _ rfl) fun _ =>
    Tame.bind (Tame.callv w _ rfl) fun _ => Tame.callv w _ rfl

theorem dispatch_tame (H : Bool) (o : Opts) (w : World) :
    Tame o is_dispatch_fn (dispatch H o w) := by
  unfold dispatch action
  refine Tame.ite _ (Tame.callv w _ rfl) ?_
  refine Tame.ite _ (Tame.callv w _ rfl) ?_
  refine Tame.ite _ (Tame.callv w _ rfl) ?_
  refine Tame.ite _ (Tame.callv w _ rfl) ?_
  refine Tame.ite _ (Tame.callv w _ rfl) ?_
  refine Tame.ite _ ?_ (Tame.ite _ (Tame.callv w _ rfl) (Tame.callv w _ rfl))
  refine Tame.bind (Tame.emit_call _ rfl) fun _ => Tame.bind ?_ fun _ => Tame.emit_ret _ _ rfl
  exact Tame.mono (fun f hf => by cases f <;> first | rfl | cases hf) (set_options_tame o w)

theorem done_eq (o : Opts) (w : World) (g : Globals) :
    done o w g =
      if g.sr_ctx = true then
        if log_exits (w.logs Fn.sr_exit) = true then
          { events := Event.call Fn.sr_exit :: log_events o (w.logs Fn.sr_exit),
            out := Outcome.halt 1 }
        else
          { events := Event.call Fn.sr_exit ::
              (log_events o (w.logs Fn.sr_exit) ++ [Event.ret Fn.sr_exit true]),
            out := Outcome.cont 0 g }
      else { events := [], out := Outcome.cont 0 g } := by
  simp only [done, bind_def, Proc.bind, get_sr_ctx, pure_def, ite_app, callv_eq]
  by_cases h : g.sr_ctx = true <;> by_cases hx : log_exits (w.logs Fn.sr_exit) = true <;>
    simp [h, hx]

theorem done_tame (o : Opts) (w : World) : Tame o is_tail_fn (done o w) := by
  unfold done
  refine Tame.bind ?_ fun r => ?_
  · intro g
    simp [get_sr_ctx, fns]
  · dsimp only
    exact Tame.ite _ (Tame.bind (Tame.callv w _ rfl) fun _ => Tame.pure _)
      (Tame.bind (Tame.pure _) fun _ => Tame.pure _)

theorem finish_tame (H : Bool) (o : Opts) (w : World) : Tame o is_tail_fn (finish H o w) := by
  unfold finish
  refine Tame.bind (Tame.mono (fun f hf => ?_) (dispatch_tame H o w)) fun _ => ?_
  · cases f <;> first | rfl | cases hf
  · dsimp only
    exact Tame.ite _ (Tame.bind (Tame.callv w _ rfl) fun _ => done_tame o w)
      (Tame.bind (Tame.pure _) fun _ => done_tame o w)

theorem main_body_eq (H : Bool) (o : Opts) (w : World) :
    main_body H o w =
      (emit [Event.call Fn.g_log_set_default_handler,
          Event.ret Fn.g_log_set_default_handler true] >>= fun _ =>
        call o w Fn.parse_options >>= fun p =>
          if (!p) = true then pure 1
          else run_steps o w (setup_steps H o) >>= fun b =>
            if (!b) = true then done o w else finish H o w) := by
  simp only [main_body, setup_eq, finish]

theorem main_eq (H : Bool) (o : Opts) (w : World) :
    main H o w =
      if log_exits (w.logs Fn.parse_options) = true then
        { trace := [Event.call Fn.g_log_set_default_handler,
            Event.ret Fn.g_log_set_default_handler true, Event.call Fn.parse_options] ++
            log_events o (w.logs Fn.parse_options),
          ending := Ending.exited 1 }
      else if w.ok Fn.parse_options = false then
        { trace := [Event.call Fn.g_log_set_default_handler,
            Event.ret Fn.g_log_set_default_handler true, Event.call Fn.parse_options] ++
            log_events o (w.logs Fn.parse_options) ++ [Event.ret Fn.parse_options false],
          ending := Ending.returned 1 }
      else
        match (run_steps o w (setup_steps H o) { sr_ctx := false, srd_sess := false }).out with
        | Outcome.halt c =>
          { trace := prologue o w ++
              (run_steps o w (setup_steps H o) { sr_ctx := false, srd_sess := false }).events,
            ending := Ending.exited c }
        | Outcome.cont b g =>
          { trace := prologue o w ++
              (run_steps o w (setup_steps H o) { sr_ctx := false, srd_sess := false }).events ++
              (tail_proc H o w b g).events,
            ending := ending_of (tail_proc H o w b g).out } := by
  simp only [main, main_body_eq, bind_def, Proc.bind, emit, call_eq]
  by_cases hx : log_exits (w.logs Fn.parse_options) = true
  · simp [hx, ending_of]
  · rcases Bool.eq_false_or_eq_true (w.ok Fn.parse_options) with hk | hk
    · simp only [hx, hk, Bool.false_eq_true, ↓reduceIte, Bool.not_true, reduceCtorEq]
      cases hS : (run_steps o w (setup_steps H o) { sr_ctx := false, srd_sess := false }).out with
      | halt c => simp [hS, prologue, ending_of, Proc.bind]
      | cont b g => cases b <;> simp [hS, prologue, tail_proc, Proc.bind]
    · simp [hx, hk, pure_def, ending_of]

theorem mem_fns_of_mem_calls (f : Fn) (evs : List Event) (h : f ∈ calls evs) : f ∈ fns evs :=
  mem_fns_of_call f evs ((mem_calls f evs).mp h)

theorem set_options_no_action (o : Opts) (w : World) (g : Globals) :
    (calls (set_options o w g).events).filter is_action = [] := by
  rw [List.filter_eq_nil_iff]
  intro f hf
  have h := ((set_options_tame o w) g).1 f (mem_fns_of_mem_calls f _ hf)
  revert h
  cases f <;> simp [is_action, is_set_options_fn]

theorem action_calls (o : Opts) (w : World) (f : Fn) (g : Globals) :
    calls (action o w f g).events = [f] := by
  simp only [action, callv_eq]
  split_ifs <;> simp [calls, calls_append, calls_log_events]

theorem dispatch_actions (H : Bool) (o : Opts) (w : World) (g : Globals) :
    (calls (dispatch H o w g).events).filter is_action = [selected_action H o] := by
  have hset : (calls ((emit [Event.call Fn.set_options] >>= fun _ =>
      set_options o w >>= fun _ => emit [Event.ret Fn.set_options true]) g).events).filter
        is_action = [Fn.set_options] := by
    simp only [bind_def, Proc.bind, emit]
    cases hout : (set_options o w g).out <;>
      simp [calls, calls_append, List.filter_cons, is_action, set_options_no_action]
  unfold dispatch selected_action
  split_ifs <;> first
    | exact hset
    | (rw [action_calls]; rfl)

theorem teardown_eq (H : Bool) (o : Opts) (w : World) (g : Globals) :
    teardown H o w g =
      if (H && o.opt_pds) = true then
        if log_exits (w.logs Fn.srd_exit) = true then
          { events := Event.call Fn.srd_exit :: log_events o (w.logs Fn.srd_exit),
            out := Outcome.halt 1 }
        else
          { events := Event.call Fn.srd_exit ::
              (log_events o (w.logs Fn.srd_exit) ++ [Event.ret Fn.srd_exit true]) ++
              (done o w g).events,
            out := (done o w g).out }
      else done o w g := by
  simp only [teardown, ite_app, bind_def, Proc.bind, callv_eq, pure_def]
  by_cases h : (H && o.opt_pds) = true <;>
    by_cases hx : log_exits (w.logs Fn.srd_exit) = true <;> simp [h, hx]

theorem finish_eq (H : Bool) (o : Opts) (w : World) (g : Globals) :
    finish H o w g =
      match (dispatch H o w g).out with
      | Outcome.halt c => { events := (dispatch H o w g).events, out := Outcome.halt c }
      | Outcome.cont _ _ =>
        { events := (dispatch H o w g).events ++ (teardown H o w g).events,
          out := (teardown H o w g).out } := by
  have hg := ((dispatch_tame H o w) g).2.2
  show (dispatch H o w >>= fun _ => teardown H o w) g = _
  simp only [bind_def, Proc.bind]
  cases hout : (dispatch H o w g).out with
  | halt c => rfl
  | cont a g1 =>
    obtain rfl := hg a g1 hout
    rfl

theorem done_tame_teardown (o : Opts) (w : World) : Tame o is_teardown_fn (done o w) := by
  unfold done
  refine Tame.bind ?_ fun r => ?_
  · intro g
    simp [get_sr_ctx, fns]
  · dsimp only
    exact Tame.ite _ (Tame.bind (Tame.callv w _ rfl) fun _ => Tame.pure _)
      (Tame.bind (Tame.pure _) fun _ => Tame.pure _)

theorem teardown_tame (H : Bool) (o : Opts) (w : World) :
    Tame o is_teardown_fn (teardown H o w) := by
  unfold teardown
  dsimp only
  exact Tame.ite _ (Tame.bind (Tame.callv w _ rfl) fun _ => done_tame_teardown o w)
    (Tame.bind (Tame.pure _) fun _ => done_tame_teardown o w)

theorem main_cases (H : Bool) (o : Opts) (w : World) :
    main H o w =
      if log_exits (w.logs Fn.parse_options) = true then
        { trace := [Event.call Fn.g_log_set_default_handler,
            Event.ret Fn.g_log_set_default_handler true, Event.call Fn.parse_options] ++
            log_events o (w.logs Fn.parse_options),
          ending := Ending.exited 1 }
      else if w.ok Fn.parse_options = false then
        { trace := [Event.call Fn.g_log_set_default_handler,
            Event.ret Fn.g_log_set_default_handler true, Event.call Fn.parse_options] ++
            log_events o (w.logs Fn.parse_options) ++ [Event.ret Fn.parse_options false],
          ending := Ending.returned 1 }
      else
        match first_bad w (setup_steps H o) with
        | none =>
          { trace := prologue o w ++ (setup_res H o w).events ++
              (finish H o w (globals_after w (setup_steps H o) initial_globals)).events,
            ending := ending_of
              (finish H o w (globals_after w (setup_steps H o) initial_globals)).out }
        | some f =>
          if log_exits (w.logs f) = true ∨ f = Fn.srd_session_new then
            { trace := prologue o w ++ (setup_res H o w).events, ending := Ending.exited 1 }
          else
            { trace := prologue o w ++ (setup_res H o w).events ++
                (done o w (globals_after w (entered w (setup_steps H o)) initial_globals)).events,
              ending := ending_of
                (done o w (globals_after w (entered w (setup_steps H o)) initial_globals)).out } := by
  rw [main_eq]
  have hout := run_steps_out o w (setup_steps H o) initial_globals
  simp only [initial_globals] at hout
  simp only [setup_res, initial_globals, hout]
  split_ifs with h1 h2
  · rfl
  · rfl
  · cases hfb : first_bad w (setup_steps H o) with
    | none => simp [tail_proc]
    | some f =>
      by_cases h3 : log_exits (w.logs f) = true ∨ f = Fn.srd_session_new
      · simp [h3]
      · simp [h3, tail_proc]

theorem setup_steps_are_setup (H : Bool) (o : Opts) :
    ∀ f ∈ setup_steps H o, is_setup_step f = true := by
  simp only [setup_steps, sink_steps]
  split_ifs <;> simp [is_setup_step]

theorem setup_not_action (f : Fn) (h : is_setup_step f = true) : is_action f = false := by
  cases f <;> first | rfl | cases h

theorem tail_not_setup (f : Fn) (h : is_tail_fn f = true) : is_setup_step f = false := by
  cases f <;> first | rfl | cases h

theorem teardown_not_action (f : Fn) (h : is_teardown_fn f = true) : is_action f = false := by
  cases f <;> first | rfl | cases h

theorem all_ok_of_first_bad_none (w : World) (fs : List Fn) (h : first_bad w fs = none) :
    ∀ f ∈ fs, step_ok w f = true := by
  intro f hf
  have := List.find?_eq_none.mp h f hf
  simpa using this

theorem setup_call_mem (H : Bool) (o : Opts) (w : World) (f : Fn)
    (h : Event.call f ∈ (setup_res H o w).events) : f ∈ entered w (setup_steps H o) := by
  rw [← mem_calls, setup_res, run_steps_calls] at h
  exact h

theorem setup_call_is_setup (H : Bool) (o : Opts) (w : World) (f : Fn)
    (h : Event.call f ∈ (setup_res H o w).events) : is_setup_step f = true :=
  setup_steps_are_setup H o f ((entered_initial w _).subset (setup_call_mem H o w f h))

theorem prologue_call (o : Opts) (w : World) (f : Fn) (h : Event.call f ∈ prologue o w) :
    f = Fn.g_log_set_default_handler ∨ f = Fn.parse_options := by
  simpa [prologue, call_not_mem_log_events] using h

theorem prologue_ret (o : Opts) (w : World) (f : Fn) (b : Bool)
    (h : Event.ret f b ∈ prologue o w) :
    f = Fn.g_log_set_default_handler ∨ f = Fn.parse_options := by
  simp only [prologue, List.mem_append, List.mem_cons, ret_not_mem_log_events, reduceCtorEq,
    Event.ret.injEq, List.mem_singleton, List.not_mem_nil, or_false, false_or] at h
  rcases h with h | h
  · exact Or.inl h.1
  · exact Or.inr h.1

theorem Tame.call_mem {α : Type} {o : Opts} {S : Fn → Bool} {p : Proc α} (hp : Tame o S p)
    (g : Globals) (f : Fn) (h : Event.call f ∈ (p g).events) : S f = true :=
  (hp g).1 f (mem_fns_of_call f _ h)

theorem Tame.ret_mem {α : Type} {o : Opts} {S : Fn → Bool} {p : Proc α} (hp : Tame o S p)
    (g : Globals) (f : Fn) (b : Bool) (h : Event.ret f b ∈ (p g).events) : S f = true :=
  (hp g).1 f (mem_fns_of_ret f b _ h)

/-- C2, no action after a failed setup step: if in a run some step of the
Resource Acquirer or of the Decoder Pipeline Builder returns failure, then none of
the eight top-level actions is invoked in that run. -/
theorem no_action_after_setup_failure (H : Bool) (o : Opts) (w : World) (f : Fn)
    (hf : is_setup_step f = true) (hfail : Event.ret f false ∈ (main H o w).trace)
    (a : Fn) (ha : is_action a = true) : Event.call a ∉ (main H o w).trace := by
  rw [main_cases] at hfail ⊢
  split_ifs at hfail ⊢ with h1 h2
  · simp only [List.mem_append, List.mem_cons, call_not_mem_log_events, Event.call.injEq,
      reduceCtorEq, List.not_mem_nil, or_false, false_or, not_or]
    constructor <;> rintro rfl <;> cases ha
  · simp only [List.mem_append, List.mem_cons, call_not_mem_log_events, Event.call.injEq,
      reduceCtorEq, List.not_mem_nil, or_false, false_or, not_or]
    constructor <;> rintro rfl <;> cases ha
  · cases hfb : first_bad w (setup_steps H o) with
    | none =>
      exfalso
      simp only [hfb, List.mem_append] at hfail
      rcases hfail with (hp | hs) | ht
      · rcases prologue_ret o w f false hp with rfl | rfl <;> cases hf
      · obtain ⟨hmem, -, hok⟩ := run_steps_ret o w _ _ f false hs
        have := all_ok_of_first_bad_none w _ hfb f ((entered_initial w _).subset hmem)
        simp [step_ok, ← hok] at this
      · have := tail_not_setup f ((finish_tame H o w).ret_mem _ f false ht)
        rw [hf] at this
        cases this
    | some f1 =>
      simp only [hfb] at hfail ⊢
      have hpre : Event.call a ∉ prologue o w ++ (setup_res H o w).events := by
        simp only [List.mem_append, not_or]
        constructor
        · intro hp
          rcases prologue_call o w a hp with rfl | rfl <;> cases ha
        · intro hs
          have := setup_not_action a (setup_call_is_setup H o w a hs)
          rw [ha] at this
          cases this
      split_ifs
      · exact hpre
      · rw [List.mem_append, not_or]
        refine ⟨hpre, fun hd => ?_⟩
        have := teardown_not_action a ((done_tame_teardown o w).call_mem _ a hd)
        rw [ha] at this
        cases this

theorem selected_action_eq_spec (o : Opts) : selected_action true o = spec_action o := by
  simp only [selected_action, spec_action, Bool.true_and, Bool.and_eq_true, Bool.or_eq_true,
    or_assoc]

theorem finish_actions (H : Bool) (o : Opts) (w : World) (g : Globals) :
    (calls (finish H o w g).events).filter is_action = [selected_action H o] := by
  rw [finish_eq]
  have htd : (calls (teardown H o w g).events).filter is_action = [] := by
    rw [List.filter_eq_nil_iff]
    intro f hf
    have := teardown_not_action f ((teardown_tame H o w).call_mem g f ((mem_calls f _).mp hf))
    simp [this]
  cases (dispatch H o w g).out with
  | halt c => exact dispatch_actions H o w g
  | cont a g1 => simp [calls_append, dispatch_actions, htd]

theorem setup_no_action (H : Bool) (o : Opts) (w : World) :
    (calls (setup_res H o w).events).filter is_action = [] := by
  rw [List.filter_eq_nil_iff]
  intro f hf
  have := setup_not_action f (setup_call_is_setup H o w f ((mem_calls f _).mp hf))
  simp [this]

theorem prologue_calls (o : Opts) (w : World) :
    calls (prologue o w) = [Fn.g_log_set_default_handler, Fn.parse_options] := by
  simp [prologue, calls, calls_append, calls_log_events]

theorem parse_ok_of_ret (H : Bool) (o : Opts) (w : World)
    (h : Event.ret Fn.parse_options true ∈ (main H o w).trace) :
    log_exits (w.logs Fn.parse_options) = false ∧ w.ok Fn.parse_options = true := by
  rw [main_cases] at h
  split_ifs at h with h1 h2
  · simp [ret_not_mem_log_events] at h
  · simp [ret_not_mem_log_events] at h
  · simpa using And.intro h1 h2

/-- When `parse_options` has succeeded and every setup step that is entered
returns success, no step of the setup sequence fails. -/
theorem first_bad_none_of_setup_ok (H : Bool) (o : Opts) (w : World)
    (hparse : Event.ret Fn.parse_options true ∈ (main H o w).trace)
    (hsetup : setup_succeeds (main H o w).trace) :
    first_bad w (setup_steps H o) = none := by
  obtain ⟨hp1, hp2⟩ := parse_ok_of_ret H o w hparse
  cases hfb : first_bad w (setup_steps H o) with
  | none => rfl
  | some f =>
    exfalso
    obtain ⟨hmem, hbad⟩ := first_bad_mem_entered w _ f hfb
    have hstep := setup_steps_are_setup H o f ((entered_initial w _).subset hmem)
    have hcall : Event.call f ∈ (setup_res H o w).events := by
      rw [← mem_calls, setup_res, run_steps_calls]
      exact hmem
    have hret : Event.call f ∈ (main H o w).trace → Event.ret f true ∈ (main H o w).trace :=
      fun hc => hsetup f ((mem_calls f _).mpr hc) hstep
    rw [main_cases] at hret
    simp only [hp1, hp2, Bool.false_eq_true, ↓reduceIte, hfb, reduceCtorEq] at hret
    have key : Event.ret f true ∈ (setup_res H o w).events := by
      split_ifs at hret
      · have := hret (by simp [hcall])
        simp only [List.mem_append] at this
        rcases this with hp | hs
        · rcases prologue_ret o w f true hp with rfl | rfl <;> cases hstep
        · exact hs
      · have := hret (by simp [hcall])
        simp only [List.mem_append] at this
        rcases this with (hp | hs) | hd
        · rcases prologue_ret o w f true hp with rfl | rfl <;> cases hstep
        · exact hs
        · have := tail_not_setup f ((done_tame o w).ret_mem _ f true hd)
          rw [hstep] at this
          cases this
    obtain ⟨-, hx, hk⟩ := run_steps_ret o w _ _ f true key
    simp [step_ok, hx, ← hk] at hbad

/-- In a run in which `parse_options` and the setup succeed, the actions invoked
are exactly the action selected by the dispatch chain. -/
theorem main_actions (H : Bool) (o : Opts) (w : World)
    (hparse : Event.ret Fn.parse_options true ∈ (main H o w).trace)
    (hsetup : setup_succeeds (main H o w).trace) :
    (calls (main H o w).trace).filter is_action = [selected_action H o] := by
  have hfb := first_bad_none_of_setup_ok H o w hparse hsetup
  obtain ⟨hp1, hp2⟩ := parse_ok_of_ret H o w hparse
  rw [main_cases]
  simp only [hp1, hp2, Bool.false_eq_true, ↓reduceIte, hfb, reduceCtorEq, calls_append,
    List.filter_append, setup_no_action, finish_actions, prologue_calls]
  rfl

/-- C1, action dispatch (decoder support compiled in): in every run in which
`parse_options` and every setup step that is entered succeed, exactly one of the
eight top-level actions is invoked, namely the first match in the order version,
scan, decoders with detail, detail, input file, set-config, capture trigger, and
`show_help` is invoked if and only if none of the seven conditions holds. -/
theorem dispatch_exactly_one_action (o : Opts) (w : World)
    (hparse : Event.ret Fn.parse_options true ∈ (main true o w).trace)
    (hsetup : setup_succeeds (main true o w).trace) :
    (calls (main true o w).trace).filter is_action = [spec_action o] ∧
    (Event.call Fn.show_help ∈ (main true o w).trace ↔
      ¬(o.opt_version = true ∨ o.opt_scan_devs = true ∨
        (o.opt_pds = true ∧ o.opt_show = true) ∨ o.opt_show = true ∨
        o.opt_input_file = true ∨ o.opt_set = true ∨
        (o.opt_samples = true ∨ o.opt_time = true ∨ o.opt_frames = true ∨
          o.opt_continuous = true))) := by
  have hact : (calls (main true o w).trace).filter is_action = [spec_action o] := by
    rw [main_actions true o w hparse hsetup, selected_action_eq_spec]
  refine ⟨hact, ?_⟩
  have hmem : Event.call Fn.show_help ∈ (main true o w).trace ↔
      Fn.show_help ∈ (calls (main true o w).trace).filter is_action := by
    rw [List.mem_filter, mem_calls]
    simp [is_action]
  rw [hmem, hact, List.mem_singleton]
  simp only [spec_action]
  split_ifs <;> simp_all

theorem no_action_after_setup_failure_witness :
    Event.ret Fn.register_pds false ∈
      (main true opts_pds_show (world_failing Fn.register_pds)).trace ∧
    Event.call Fn.show_pd_detail ∉
      (main true opts_pds_show (world_failing Fn.register_pds)).trace :=
  ⟨by decide, no_action_after_setup_failure true opts_pds_show (world_failing Fn.register_pds)
    Fn.register_pds rfl (by decide) Fn.show_pd_detail rfl⟩

theorem dispatch_exactly_one_action_witness :
    (Event.ret Fn.parse_options true ∈ (main true opts_pds_show world_ok).trace ∧
      setup_succeeds (main true opts_pds_show world_ok).trace) ∧
    (calls (main true opts_pds_show world_ok).trace).filter is_action = [Fn.show_pd_detail] :=
  ⟨⟨by decide, by decide⟩,
    (dispatch_exactly_one_action opts_pds_show world_ok (by decide) (by decide)).1⟩

theorem main_calls (H : Bool) (o : Opts) (w : World) :
    calls (main H o w).trace =
      [Fn.g_log_set_default_handler, Fn.parse_options] ++
        (if step_ok w Fn.parse_options = true then
          entered w (setup_steps H o) ++ tail_calls H o w
        else []) := by
  rw [main_cases]
  by_cases h1 : log_exits (w.logs Fn.parse_options) = true
  · simp [h1, step_ok, calls, calls_append, calls_log_events]
  · rcases Bool.eq_false_or_eq_true (w.ok Fn.parse_options) with h2 | h2
    · simp only [h1, h2, step_ok, Bool.false_eq_true, ↓reduceIte, reduceCtorEq, tail_calls,
        Bool.not_false, Bool.and_self, Bool.not_eq_true]
      cases hfb : first_bad w (setup_steps H o) with
      | none =>
        simp [calls_append, prologue_calls, setup_res, run_steps_calls,
          entered_of_all_ok w _ hfb]
      | some f =>
        by_cases h3 : log_exits (w.logs f) = true ∨ f = Fn.srd_session_new
        · simp [h3, calls_append, prologue_calls, setup_res, run_steps_calls]
        · simp [h3, calls_append, prologue_calls, setup_res, run_steps_calls]
    · simp [h1, h2, step_ok, calls, calls_append, calls_log_events]

theorem done_calls (o : Opts) (w : World) (g : Globals) :
    calls (done o w g).events = if g.sr_ctx = true then [Fn.sr_exit] else [] := by
  rw [done_eq]
  split_ifs <;> simp [calls, calls_append, calls_log_events]

theorem tail_calls_tail (H : Bool) (o : Opts) (w : World) :
    ∀ f ∈ tail_calls H o w, is_tail_fn f = true := by
  intro f hf
  simp only [tail_calls] at hf
  split at hf
  · exact (finish_tame H o w).call_mem _ f ((mem_calls f _).mp hf)
  · split_ifs at hf
    · simp at hf
    · exact (done_tame o w).call_mem _ f ((mem_calls f _).mp hf)

theorem srd_exit_mem_finish (H : Bool) (o : Opts) (w : World) (g : Globals)
    (h : Fn.srd_exit ∈ calls (finish H o w g).events) : (H && o.opt_pds) = true := by
  rw [finish_eq] at h
  have hd : Fn.srd_exit ∉ calls (dispatch H o w g).events := by
    intro hm
    have := (dispatch_tame H o w).call_mem g _ ((mem_calls _ _).mp hm)
    cases this
  split at h
  · exact absurd h hd
  · simp only [calls_append, List.mem_append, hd, false_or, teardown_eq] at h
    by_contra hc
    simp only [hc, Bool.false_eq_true, ↓reduceIte, done_calls] at h
    split_ifs at h <;> simp at h

theorem srd_exit_mem_tail (H : Bool) (o : Opts) (w : World)
    (h : Fn.srd_exit ∈ tail_calls H o w) :
    (H && o.opt_pds) = true ∧ first_bad w (setup_steps H o) = none := by
  simp only [tail_calls] at h
  split at h
  · next hfb => exact ⟨srd_exit_mem_finish H o w _ h, hfb⟩
  · split_ifs at h
    · simp at h
    · rw [done_calls] at h
      split_ifs at h <;> simp at h

theorem setup_steps_no_pds (H : Bool) (o : Opts) (h : (H && o.opt_pds) = false) :
    ∀ f ∈ setup_steps H o, is_decoder_pipeline_fn f = false := by
  simp only [setup_steps]
  cases H <;> cases hp : o.opt_pds <;> simp_all [is_decoder_pipeline_fn]

theorem mem_main_calls (H : Bool) (o : Opts) (w : World) (f : Fn)
    (h : f ∈ calls (main H o w).trace) :
    f = Fn.g_log_set_default_handler ∨ f = Fn.parse_options ∨
      (step_ok w Fn.parse_options = true ∧
        (f ∈ entered w (setup_steps H o) ∨ f ∈ tail_calls H o w)) := by
  rw [main_calls] at h
  simp only [List.mem_append, List.mem_cons, List.not_mem_nil, or_false] at h
  rcases h with (h | h) | h
  · exact Or.inl h
  · exact Or.inr (Or.inl h)
  · split_ifs at h with hp
    · exact Or.inr (Or.inr ⟨hp, List.mem_append.mp h⟩)
    · simp at h

theorem decoder_fn_not_called (H : Bool) (o : Opts) (w : World)
    (hpds : o.opt_pds = false) (f : Fn) (hf : is_decoder_pipeline_fn f = true) :
    Event.call f ∉ (main H o w).trace := by
  rw [← mem_calls]
  intro hmem
  have hno : (H && o.opt_pds) = false := by simp [hpds]
  rcases mem_main_calls H o w f hmem with rfl | rfl | ⟨-, hs | ht⟩
  · cases hf
  · cases hf
  · have := setup_steps_no_pds H o hno f ((entered_initial w _).subset hs)
    rw [hf] at this
    cases this
  · have htail := tail_calls_tail H o w f ht
    have : f = Fn.srd_exit := by
      revert hf htail
      cases f <;> simp [is_decoder_pipeline_fn, is_tail_fn, is_dispatch_fn, is_action]
    subst this
    have := (srd_exit_mem_tail H o w ht).1
    rw [hno] at this
    cases this

/-- C6, decoding not requested: in every run with `opt_pds` unset, whatever the
other options and the outcomes of the external calls, none of `srd_init`,
`srd_session_new`, `register_pds`, `setup_pd_stack`, the sink validations,
`srd_pd_output_callback_add` and `srd_exit` is called. -/
theorem no_decoder_calls_without_pds (H : Bool) (o : Opts) (w : World)
    (hpds : o.opt_pds = false) (f : Fn) (hf : is_decoder_pipeline_fn f = true) :
    Event.call f ∉ (main H o w).trace :=
  decoder_fn_not_called H o w hpds f hf

theorem no_decoder_calls_without_pds_witness :
    opts_none.opt_pds = false ∧
    Event.call Fn.srd_init ∉ (main true opts_none world_ok).trace :=
  ⟨rfl, no_decoder_calls_without_pds true opts_none world_ok rfl Fn.srd_init rfl⟩

theorem setup_steps_callback (H : Bool) (o : Opts) (k : OutputType)
    (h : Fn.srd_pd_output_callback_add k ∈ setup_steps H o) :
    k = spec_sink o ∧ (H && o.opt_pds) = true := by
  revert h
  simp only [setup_steps, sink_steps, spec_sink]
  cases H <;> cases o.opt_pds <;> cases o.opt_pd_binary <;> cases o.opt_pd_meta <;>
    cases o.opt_pd_annotations <;> simp

theorem setup_steps_callback_count (H : Bool) (o : Opts) :
    (setup_steps H o).countP is_callback_add = if (H && o.opt_pds) = true then 1 else 0 := by
  simp only [setup_steps, sink_steps]
  cases H <;> cases o.opt_pds <;> cases o.opt_pd_binary <;> cases o.opt_pd_meta <;>
    cases o.opt_pd_annotations <;> rfl

theorem tail_not_callback (f : Fn) (h : is_tail_fn f = true) : is_callback_add f = false := by
  cases f <;> first | rfl | cases h

theorem main_callback_count (H : Bool) (o : Opts) (w : World) :
    (calls (main H o w).trace).countP is_callback_add =
      if step_ok w Fn.parse_options = true then
        (entered w (setup_steps H o)).countP is_callback_add
      else 0 := by
  have ht : (tail_calls H o w).countP is_callback_add = 0 := by
    rw [List.countP_eq_zero]
    intro f hf
    simp [tail_not_callback f (tail_calls_tail H o w f hf)]
  rw [main_calls]
  split_ifs <;> simp [List.countP_cons, is_callback_add, ht]

theorem entered_callback_count_le (H : Bool) (o : Opts) (w : World) :
    (entered w (setup_steps H o)).countP is_callback_add ≤
      if (H && o.opt_pds) = true then 1 else 0 := by
  rw [← setup_steps_callback_count]
  exact (entered_initial w _).sublist.countP_le _

theorem setup_ret_mem (H : Bool) (o : Opts) (w : World) (f : Fn) (b : Bool)
    (hstep : is_setup_step f = true) (h : Event.ret f b ∈ (main H o w).trace) :
    step_ok w Fn.parse_options = true ∧ Event.ret f b ∈ (setup_res H o w).events := by
  rw [main_cases] at h
  split_ifs at h with h1 h2
  · simp only [List.mem_append, List.mem_cons, ret_not_mem_log_events, reduceCtorEq,
      Event.ret.injEq, List.not_mem_nil, or_false, false_or] at h
    obtain ⟨rfl, -⟩ := h
    cases hstep
  · simp only [List.mem_append, List.mem_cons, ret_not_mem_log_events, reduceCtorEq,
      Event.ret.injEq, List.not_mem_nil, or_false, false_or] at h
    rcases h with ⟨rfl, -⟩ | ⟨rfl, -⟩ <;> cases hstep
  · have hpok : step_ok w Fn.parse_options = true := by
      simp only [Bool.not_eq_true] at h1 h2
      simp [step_ok, h1, h2]
    refine ⟨hpok, ?_⟩
    have hpro : Event.ret f b ∉ prologue o w := fun hp => by
      rcases prologue_ret o w f b hp with rfl | rfl <;> cases hstep
    split at h
    · simp only [List.mem_append, hpro, false_or] at h
      rcases h with hs | ht
      · exact hs
      · have := tail_not_setup f ((finish_tame H o w).ret_mem _ f b ht)
        rw [hstep] at this
        cases this
    · split_ifs at h
      · simpa [hpro] using h
      · simp only [List.mem_append, hpro, false_or] at h
        rcases h with hs | ht
        · exact hs
        · have := tail_not_setup f ((done_tame o w).ret_mem _ f b ht)
          rw [hstep] at this
          cases this

theorem step_ok_of_ret_true (H : Bool) (o : Opts) (w : World) (f : Fn)
    (hstep : is_setup_step f = true) (h : Event.ret f true ∈ (main H o w).trace) :
    step_ok w f = true := by
  obtain ⟨-, hx, hk⟩ := run_steps_ret o w _ _ f true (setup_ret_mem H o w f true hstep h).2
  simp [step_ok, hx, ← hk]

theorem entered_mem_main (H : Bool) (o : Opts) (w : World) (f : Fn)
    (hp : step_ok w Fn.parse_options = true) (h : f ∈ entered w (setup_steps H o)) :
    f ∈ calls (main H o w).trace := by
  rw [main_calls]
  simp [hp, h]

/-- C3, output sink selection: in every run `srd_pd_output_callback_add` is called
at most once, so no two sinks are registered together; and when decoding is
requested and the call is made, the kind passed is binary if `opt_pd_binary` is
set, otherwise meta if `opt_pd_meta` is set, otherwise annotation. -/
theorem sink_selection (H : Bool) (o : Opts) (w : World) :
    (calls (main H o w).trace).countP is_callback_add ≤ 1 ∧
    ∀ k, o.opt_pds = true →
      Event.call (Fn.srd_pd_output_callback_add k) ∈ (main H o w).trace → k = spec_sink o := by
  constructor
  · rw [main_callback_count]
    split_ifs
    · refine le_trans (entered_callback_count_le H o w) ?_
      split_ifs <;> simp
    · simp
  · intro k _ hcall
    rw [← mem_calls] at hcall
    rcases mem_main_calls H o w _ hcall with h | h | ⟨-, hs | ht⟩
    · cases h
    · cases h
    · exact (setup_steps_callback H o k ((entered_initial w _).subset hs)).1
    · have := tail_calls_tail H o w _ ht
      cases this

theorem sink_selection_witness :
    opts_pds_binary.opt_pds = true ∧
    Event.call (Fn.srd_pd_output_callback_add OutputType.SRD_OUTPUT_BINARY) ∈
      (main true opts_pds_binary world_ok).trace ∧
    OutputType.SRD_OUTPUT_BINARY = spec_sink opts_pds_binary :=
  ⟨rfl, by decide,
    (sink_selection true opts_pds_binary world_ok).2 OutputType.SRD_OUTPUT_BINARY rfl
      (by decide)⟩

/-- C4 as stated fails: with decoding requested and `sr_init` failing, no output
callback is registered. -/
theorem callback_count_counterexample :
    opts_pds_show.opt_pds = true ∧
    (calls (main true opts_pds_show (world_failing Fn.sr_init)).trace).countP
      is_callback_add = 0 := by
  decide

/-- C4 amended, number of output-callback registrations (decoder support compiled
in): at most one call of `srd_pd_output_callback_add` in every run; none when
`opt_pds` is unset; exactly one when `opt_pds` is set, `parse_options` succeeded and
every setup step before the registration that is entered succeeded. -/
theorem callback_registration_count (o : Opts) (w : World) :
    (calls (main true o w).trace).countP is_callback_add ≤ 1 ∧
    (o.opt_pds = false → (calls (main true o w).trace).countP is_callback_add = 0) ∧
    (o.opt_pds = true → Event.ret Fn.parse_options true ∈ (main true o w).trace →
      steps_before_callback_succeed (main true o w).trace →
      (calls (main true o w).trace).countP is_callback_add = 1) := by
  have hle : (calls (main true o w).trace).countP is_callback_add ≤ 1 := by
    rw [main_callback_count]
    split_ifs
    · refine le_trans (entered_callback_count_le true o w) ?_
      split_ifs <;> simp
    · simp
  refine ⟨hle, fun hpds => ?_, fun hpds hparse hbefore => ?_⟩
  · have := entered_callback_count_le true o w
    rw [main_callback_count]
    simp only [hpds, Bool.and_false, Bool.false_eq_true, ↓reduceIte, Nat.le_zero_eq] at this
    split_ifs <;> simp [this]
  · obtain ⟨hp1, hp2⟩ := parse_ok_of_ret true o w hparse
    have hpok : step_ok w Fn.parse_options = true := by simp [step_ok, hp1, hp2]
    refine le_antisymm hle ?_
    rw [main_callback_count, if_pos hpok]
    cases hfb : first_bad w (setup_steps true o) with
    | none =>
      rw [entered_of_all_ok w _ hfb, setup_steps_callback_count]
      simp [hpds]
    | some f =>
      obtain ⟨hmem, hbad⟩ := first_bad_mem_entered w _ f hfb
      have hstep := setup_steps_are_setup true o f ((entered_initial w _).subset hmem)
      have hcb : is_callback_add f = true := by
        by_contra hn
        have hret := hbefore f (entered_mem_main true o w f hpok hmem) hstep (by simpa using hn)
        have := step_ok_of_ret_true true o w f hstep hret
        rw [hbad] at this
        cases this
      exact List.countP_pos_iff.mpr ⟨f, hmem, hcb⟩

theorem callback_registration_count_witness :
    (opts_pds_show.opt_pds = true ∧
      Event.ret Fn.parse_options true ∈ (main true opts_pds_show world_ok).trace ∧
      steps_before_callback_succeed (main true opts_pds_show world_ok).trace) ∧
    (calls (main true opts_pds_show world_ok).trace).countP is_callback_add = 1 :=
  ⟨⟨rfl, by decide, by decide⟩,
    (callback_registration_count opts_pds_show world_ok).2.2 rfl (by decide) (by decide)⟩

theorem run_steps_ret_mem (o : Opts) (w : World) (fs : List Fn) (g : Globals) (f : Fn)
    (hmem : f ∈ entered w fs) (hx : log_exits (w.logs f) = false) :
    Event.ret f (w.ok f) ∈ (run_steps o w fs g).events := by
  induction fs generalizing g with
  | nil => simp [entered] at hmem
  | cons a fs ih =>
    simp only [entered, List.mem_cons] at hmem
    rcases step_cases w a with h | ⟨h, hk, rfl⟩ | ⟨h, hk, hs⟩ | ⟨h, hk⟩
    · have : f = a := by simpa [step_ok, h] using hmem
      subst this
      rw [h] at hx
      cases hx
    · have : f = Fn.srd_session_new := by simpa [step_ok, h, hk] using hmem
      subst this
      simp [run_steps_session_fail o w fs g h hk, hk]
    · have : f = a := by simpa [step_ok, h, hk] using hmem
      subst this
      simp [run_steps_fail o w f fs g h hk hs, hk]
    · rw [run_steps_ok o w a fs g h hk]
      simp only [step_ok, h, hk, Bool.not_false, Bool.and_self, ↓reduceIte] at hmem
      rcases hmem with rfl | hmem
      · simp [hk]
      · simp [ih _ hmem]

theorem setup_events_sub_main (H : Bool) (o : Opts) (w : World) (e : Event)
    (hp : step_ok w Fn.parse_options = true) (h : e ∈ (setup_res H o w).events) :
    e ∈ (main H o w).trace := by
  have h1 : log_exits (w.logs Fn.parse_options) = false := by
    simp only [step_ok, Bool.and_eq_true, Bool.not_eq_true'] at hp
    exact hp.1
  have h2 : w.ok Fn.parse_options = true := by
    simp only [step_ok, Bool.and_eq_true] at hp
    exact hp.2
  rw [main_cases]
  simp only [h1, h2, Bool.false_eq_true, ↓reduceIte, reduceCtorEq]
  split
  · simp [h]
  · split_ifs <;> simp [h]

/-- What a returned failure of a setup step means for the run. -/
theorem setup_failure_facts (H : Bool) (o : Opts) (w : World) (f : Fn)
    (hstep : is_setup_step f = true) (hfail : Event.ret f false ∈ (main H o w).trace) :
    step_ok w Fn.parse_options = true ∧ first_bad w (setup_steps H o) = some f ∧
      log_exits (w.logs f) = false ∧ w.ok f = false := by
  obtain ⟨hp, hs⟩ := setup_ret_mem H o w f false hstep hfail
  obtain ⟨hmem, hx, hk⟩ := run_steps_ret o w _ _ f false hs
  refine ⟨hp, first_bad_of_mem_entered w _ f hmem ?_, hx, hk.symm⟩
  simp [step_ok, ← hk]

theorem entered_count_tail_fn (H : Bool) (o : Opts) (w : World) (f : Fn)
    (h : is_tail_fn f = true) : (entered w (setup_steps H o)).count f = 0 := by
  rw [List.count_eq_zero]
  intro hmem
  have := setup_steps_are_setup H o f ((entered_initial w _).subset hmem)
  rw [tail_not_setup f h] at this
  cases this

theorem sr_init_ret_iff (H : Bool) (o : Opts) (w : World)
    (hp : step_ok w Fn.parse_options = true) :
    Event.ret Fn.sr_init true ∈ (main H o w).trace ↔
      Fn.sr_init ∈ entered w (setup_steps H o) ∧ step_ok w Fn.sr_init = true := by
  constructor
  · intro h
    obtain ⟨hmem, hx, hk⟩ := run_steps_ret o w _ _ _ _ (setup_ret_mem H o w Fn.sr_init true rfl h).2
    exact ⟨hmem, by simp [step_ok, hx, ← hk]⟩
  · rintro ⟨hmem, hok⟩
    simp only [step_ok, Bool.and_eq_true, Bool.not_eq_true'] at hok
    have := run_steps_ret_mem o w (setup_steps H o) initial_globals _ hmem hok.1
    rw [hok.2] at this
    exact setup_events_sub_main H o w _ hp this

/-- C5 as stated fails: when `srd_session_new` fails after `sr_init` succeeded, the
process is terminated by `logger` and `sr_exit` is never called. -/
theorem teardown_counterexample :
    Event.ret Fn.srd_session_new false ∈
      (main true opts_pds_show (world_failing Fn.srd_session_new)).trace ∧
    Event.ret Fn.sr_init true ∈
      (main true opts_pds_show (world_failing Fn.srd_session_new)).trace ∧
    (calls (main true opts_pds_show (world_failing Fn.srd_session_new)).trace).count
      Fn.sr_exit = 0 := by
  decide

/-- C5 amended, teardown after a failed setup step, with `sr_init` leaving `sr_ctx`
non-NULL exactly when it succeeds. If a setup step other than `srd_session_new`
returns failure, `sr_exit` is called exactly once if `sr_init` had succeeded and
not at all otherwise, `srd_exit` is called at most once, and not at all unless
`srd_init` had succeeded. If `srd_session_new` returns failure, `logger` ends the
process with status 1 and neither `sr_exit` nor `srd_exit` is called. -/
theorem teardown_after_setup_failure (H : Bool) (o : Opts) (w : World) (f : Fn)
    (hstep : is_setup_step f = true) (hfail : Event.ret f false ∈ (main H o w).trace)
    (hlib : w.sr_init_ctx = w.ok Fn.sr_init) :
    (f ≠ Fn.srd_session_new →
      (calls (main H o w).trace).count Fn.sr_exit =
          (if Event.ret Fn.sr_init true ∈ (main H o w).trace then 1 else 0) ∧
        (calls (main H o w).trace).count Fn.srd_exit ≤ 1 ∧
        (Event.ret Fn.srd_init true ∉ (main H o w).trace →
          Event.call Fn.srd_exit ∉ (main H o w).trace)) ∧
    (f = Fn.srd_session_new →
      (main H o w).ending = Ending.exited 1 ∧
        Event.call Fn.sr_exit ∉ (main H o w).trace ∧
        Event.call Fn.srd_exit ∉ (main H o w).trace) := by
  obtain ⟨hp, hfb, hx, hk⟩ := setup_failure_facts H o w f hstep hfail
  have hmem := (first_bad_mem_entered w _ f hfb).1
  have hsrd : Fn.srd_exit ∉ calls (main H o w).trace := by
    intro hm
    rcases mem_main_calls H o w _ hm with h | h | ⟨-, hs | ht⟩
    · cases h
    · cases h
    · have := setup_steps_are_setup H o _ ((entered_initial w _).subset hs)
      cases this
    · have := (srd_exit_mem_tail H o w ht).2
      rw [hfb] at this
      cases this
  constructor
  · intro hne
    refine ⟨?_, ?_, fun _ => by rwa [← mem_calls]⟩
    · have htail : tail_calls H o w =
          calls (done o w (globals_after w (entered w (setup_steps H o))
            initial_globals)).events := by
        simp [tail_calls, hfb, hx, hne]
      rw [main_calls, if_pos hp, htail, done_calls]
      simp only [sr_init_ret_iff H o w hp, List.count_append, entered_count_tail_fn H o w Fn.sr_exit rfl, globals_after,
        initial_globals]
      by_cases hin : Fn.sr_init ∈ entered w (setup_steps H o)
      · have hok : step_ok w Fn.sr_init = w.ok Fn.sr_init := by
          rcases Bool.eq_false_or_eq_true (step_ok w Fn.sr_init) with h | h
          · have := h
            simp only [step_ok, Bool.and_eq_true, Bool.not_eq_true'] at this
            rw [h, this.2]
          · have := first_bad_of_mem_entered w _ _ hin h
            rw [hfb] at this
            cases this
            rw [h, hk]
        simp only [hin, ↓reduceIte, hlib, true_and, hok]
        cases w.ok Fn.sr_init <;> simp
      · simp [hin]
    · rw [List.count_eq_zero.mpr hsrd]
      exact Nat.zero_le 1
  · intro hf
    subst hf
    refine ⟨?_, ?_, by rwa [← mem_calls]⟩
    · have h1 : log_exits (w.logs Fn.parse_options) = false := by
        simp only [step_ok, Bool.and_eq_true, Bool.not_eq_true'] at hp
        exact hp.1
      have h2 : w.ok Fn.parse_options = true := by
        simp only [step_ok, Bool.and_eq_true] at hp
        exact hp.2
      rw [main_cases]
      simp [h1, h2, hfb]
    · rw [← mem_calls]
      intro hm
      rcases mem_main_calls H o w _ hm with h | h | ⟨-, hs | ht⟩
      · cases h
      · cases h
      · have := setup_steps_are_setup H o _ ((entered_initial w _).subset hs)
        cases this
      · simp [tail_calls, hfb] at ht

theorem teardown_after_setup_failure_witness :
    (Event.ret Fn.register_pds false ∈
        (main true opts_pds_show (world_failing Fn.register_pds)).trace ∧
      (world_failing Fn.register_pds).sr_init_ctx =
        (world_failing Fn.register_pds).ok Fn.sr_init) ∧
    (calls (main true opts_pds_show (world_failing Fn.register_pds)).trace).count
      Fn.sr_exit = 1 :=
  ⟨⟨by decide, by decide⟩,
    ((teardown_after_setup_failure true opts_pds_show (world_failing Fn.register_pds)
      Fn.register_pds rfl (by decide) (by decide)).1 (by decide)).1.trans (by decide)⟩

theorem nat_or_eq_zero (x y : Nat) : x ||| y = 0 ↔ x = 0 ∧ y = 0 := by
  constructor
  · intro h
    have hb : ∀ i, (x.testBit i || y.testBit i) = false := by
      intro i
      rw [← Nat.testBit_or, h, Nat.zero_testBit]
    constructor
    · apply Nat.eq_of_testBit_eq
      intro i
      have := hb i
      simp only [Bool.or_eq_false_iff] at this
      simp [this.1]
    · apply Nat.eq_of_testBit_eq
      intro i
      have := hb i
      simp only [Bool.or_eq_false_iff] at this
      simp [this.2]
  · rintro ⟨rfl, rfl⟩
    rfl

theorem logger_exits_iff (log_level : Nat) :
    logger_exits log_level = true ↔
      (log_level &&& G_LOG_LEVEL_ERROR ≠ 0 ∨ log_level &&& G_LOG_LEVEL_CRITICAL ≠ 0) := by
  simp only [logger_exits, Nat.and_or_distrib_left, bne_iff_ne, ne_eq, nat_or_eq_zero,
    not_and_or]

theorem terminated_of_ends (o : Opts) (t : List Event) (h : ends_in_logger_exit o t) :
    terminated_by_logger o t := by
  obtain ⟨pre, d, lvl, msg, hl, rfl⟩ := h
  exact ⟨pre, d, lvl, msg, (logger_exits_iff lvl).mp hl, by simp [logger, hl], rfl⟩

theorem run_steps_halt (o : Opts) (w : World) (fs : List Fn) (g : Globals) (c : Int)
    (h : (run_steps o w fs g).out = Outcome.halt c) :
    c = 1 ∧ ends_in_logger_exit o (run_steps o w fs g).events := by
  induction fs generalizing g with
  | nil => simp [run_steps_nil, pure_def] at h
  | cons a fs ih =>
    rcases step_cases w a with hx | ⟨hx, hk, rfl⟩ | ⟨hx, hk, hs⟩ | ⟨hx, hk⟩
    · rw [run_steps_exit o w a fs g hx] at h ⊢
      cases h
      exact ⟨rfl, ends_in_logger_exit_cons o _ _ (log_events_exit o _ hx)⟩
    · rw [run_steps_session_fail o w fs g hx hk] at h ⊢
      cases h
      refine ⟨rfl, ends_in_logger_exit_cons o _ _ (ends_in_logger_exit_append o _ _ ?_)⟩
      exact ends_in_logger_exit_cons o _ _ (g_critical_exit o _)
    · rw [run_steps_fail o w a fs g hx hk hs] at h
      cases h
    · rw [run_steps_ok o w a fs g hx hk] at h ⊢
      exact ⟨(ih _ h).1, ends_in_logger_exit_append o _ _ (ih _ h).2⟩

theorem done_status (o : Opts) (w : World) (g g1 : Globals) (st : Int)
    (h : (done o w g).out = Outcome.cont st g1) : st = 0 := by
  rw [done_eq] at h
  split_ifs at h <;> cases h <;> rfl

theorem finish_status (H : Bool) (o : Opts) (w : World) (g g1 : Globals) (st : Int)
    (h : (finish H o w g).out = Outcome.cont st g1) : st = 0 := by
  rw [finish_eq] at h
  cases hd : (dispatch H o w g).out with
  | halt c =>
    simp only [hd] at h
    cases h
  | cont a g2 =>
    simp only [hd, teardown_eq] at h
    split_ifs at h <;> exact done_status o w g g1 st h

/-- C7, exit status: in every run in which `parse_options` succeeded, a run that
ends by returning from `main` has status 0, and a run with a non-zero status was
ended by `logger` calling `exit(1)` on a message with the fatal or the critical
bit set; nothing follows that invocation of `logger` in the trace. -/
theorem exit_status (H : Bool) (o : Opts) (w : World)
    (hparse : Event.ret Fn.parse_options true ∈ (main H o w).trace) :
    (∀ s, (main H o w).ending = Ending.returned s → s = 0) ∧
    ((main H o w).ending.status ≠ 0 →
      (main H o w).ending = Ending.exited 1 ∧ terminated_by_logger o (main H o w).trace) := by
  obtain ⟨hp1, hp2⟩ := parse_ok_of_ret H o w hparse
  have key : ∀ {p : Proc Int} {g : Globals} (pre : List Event), Tame o is_tail_fn p →
      (∀ g1 st, (p g).out = Outcome.cont st g1 → st = 0) →
      (∀ s, ending_of (p g).out = Ending.returned s → s = 0) ∧
      ((ending_of (p g).out).status ≠ 0 → ending_of (p g).out = Ending.exited 1 ∧
        terminated_by_logger o (pre ++ (p g).events)) := by
    intro p g pre hp hst
    cases hout : (p g).out with
    | cont st g1 =>
      have := hst g1 st hout
      subst this
      simp [ending_of, Ending.status]
    | halt c =>
      obtain ⟨hc, hends⟩ := (hp g).2.1 c hout
      subst hc
      refine ⟨fun s hs => ?_, fun _ => ⟨rfl, ?_⟩⟩
      · cases hs
      · exact terminated_of_ends o _ (ends_in_logger_exit_append o _ _ hends)
  rw [main_cases]
  simp only [hp1, hp2, Bool.false_eq_true, ↓reduceIte, reduceCtorEq]
  cases hfb : first_bad w (setup_steps H o) with
  | none =>
    exact key _ (finish_tame H o w) (fun g1 st h => finish_status H o w _ g1 st h)
  | some f =>
    simp only []
    split_ifs with h3
    · refine ⟨fun s hs => ?_, fun _ => ⟨rfl, ?_⟩⟩
      · cases hs
      refine terminated_of_ends o _ (ends_in_logger_exit_append o _ _ ?_)
      have hout := run_steps_out o w (setup_steps H o) initial_globals
      rw [hfb] at hout
      simp only [h3, ↓reduceIte] at hout
      exact (run_steps_halt o w _ _ 1 hout).2
    · exact key _ (done_tame o w) (fun g1 st h => done_status o w _ g1 st h)

theorem exit_status_witness :
    Event.ret Fn.parse_options true ∈
      (main true opts_pds_show (world_failing Fn.srd_session_new)).trace ∧
    terminated_by_logger opts_pds_show
      (main true opts_pds_show (world_failing Fn.srd_session_new)).trace :=
  ⟨by decide,
    ((exit_status true opts_pds_show (world_failing Fn.srd_session_new) (by decide)).2
      (by decide)).2⟩

/-- C8 as stated fails: with a version request next to the detail request and the
decoders, setup succeeds and the decoder detail is not shown. -/
theorem decoder_detail_counterexample :
    opts_version_pds_show.opt_show = true ∧ opts_version_pds_show.opt_pds = true ∧
    Event.ret Fn.parse_options true ∈ (main true opts_version_pds_show world_ok).trace ∧
    setup_succeeds (main true opts_version_pds_show world_ok).trace ∧
    Event.call Fn.show_pd_detail ∉ (main true opts_version_pds_show world_ok).trace := by
  decide

/-- C8 amended, priority of decoder detail over device detail (decoder support
compiled in): in every run with a detail request and decoding requested in which
`parse_options` and the setup succeed, `show_dev_detail` is not invoked, and
`show_pd_detail` is invoked if and only if neither the version nor the device scan
is requested. -/
theorem decoder_detail_priority (o : Opts) (w : World)
    (hshow : o.opt_show = true) (hpds : o.opt_pds = true)
    (hparse : Event.ret Fn.parse_options true ∈ (main true o w).trace)
    (hsetup : setup_succeeds (main true o w).trace) :
    Event.call Fn.show_dev_detail ∉ (main true o w).trace ∧
    (Event.call Fn.show_pd_detail ∈ (main true o w).trace ↔
      (o.opt_version = false ∧ o.opt_scan_devs = false)) := by
  have hact := main_actions true o w hparse hsetup
  have hmem : ∀ a, is_action a = true →
      (Event.call a ∈ (main true o w).trace ↔ a = selected_action true o) := by
    intro a ha
    rw [← mem_calls, ← List.mem_singleton, ← hact, List.mem_filter]
    simp [ha]
  rw [hmem Fn.show_dev_detail rfl, hmem Fn.show_pd_detail rfl]
  simp only [selected_action, hshow, hpds, Bool.and_self, ↓reduceIte]
  cases o.opt_version <;> cases o.opt_scan_devs <;> simp

theorem decoder_detail_priority_witness :
    (opts_pds_show.opt_show = true ∧ opts_pds_show.opt_pds = true ∧
      Event.ret Fn.parse_options true ∈ (main true opts_pds_show world_ok).trace ∧
      setup_succeeds (main true opts_pds_show world_ok).trace) ∧
    Event.call Fn.show_dev_detail ∉ (main true opts_pds_show world_ok).trace :=
  ⟨⟨rfl, rfl, by decide, by decide⟩,
    (decoder_detail_priority opts_pds_show world_ok rfl rfl (by decide) (by decide)).1⟩

theorem action_in_tail (H : Bool) (o : Opts) (w : World) (a : Fn) (ha : is_action a = true)
    (h : a ∈ tail_calls H o w) :
    first_bad w (setup_steps H o) = none ∧
      a ∈ calls (finish H o w (globals_after w (setup_steps H o) initial_globals)).events := by
  simp only [tail_calls] at h
  split at h
  · next hfb => exact ⟨hfb, h⟩
  · split_ifs at h
    · simp at h
    · rw [done_calls] at h
      split_ifs at h
      · simp only [List.mem_singleton] at h
        subst h
        cases ha
      · simp at h

theorem dispatch_of_selected (H : Bool) (o : Opts) (w : World) (a : Fn)
    (h : selected_action H o = a) (hne : a ≠ Fn.set_options) :
    dispatch H o w = action o w a := by
  subst h
  revert hne
  unfold dispatch selected_action
  split_ifs <;> simp

theorem finish_of_action (H : Bool) (o : Opts) (w : World) (a : Fn) (g : Globals)
    (h : dispatch H o w = action o w a) :
    finish H o w g =
      if log_exits (w.logs a) = true then
        { events := Event.call a :: log_events o (w.logs a), out := Outcome.halt 1 }
      else
        { events := Event.call a :: (log_events o (w.logs a) ++ [Event.ret a true]) ++
            (teardown H o w g).events,
          out := (teardown H o w g).out } := by
  rw [finish_eq, h]
  simp only [action, callv_eq]
  split_ifs <;> rfl

theorem sr_init_mem_setup_steps (H : Bool) (o : Opts) : Fn.sr_init ∈ setup_steps H o := by
  simp [setup_steps]

theorem setup_ret_is_setup (H : Bool) (o : Opts) (w : World) (f : Fn) (b : Bool)
    (h : Event.ret f b ∈ (setup_res H o w).events) : is_setup_step f = true :=
  setup_steps_are_setup H o f
    ((entered_initial w _).subset (run_steps_ret o w _ _ f b h).1)

/-- C9 as stated fails: in a run that dispatches the version action the acquisition
context has been created by `sr_init`, and the teardown has it to release. -/
theorem version_frame_counterexample :
    Event.call Fn.show_version ∈ (main true opts_version world_ok).trace ∧
    Event.ret Fn.sr_init true ∈ (main true opts_version world_ok).trace ∧
    Event.call Fn.sr_exit ∈ (main true opts_version world_ok).trace := by
  decide

/-- C9 amended, the version and help actions: in every run that dispatches
`show_version` or `show_help`, the acquisition context was created before the
action (`sr_init` returned success before the action is entered); if `opt_pds` is
unset no decoder context, session, registration or callback is created and
`srd_exit` is not called; and if the action returns, and `srd_exit` returns when it
is called, the run reaches the label `done`, where `sr_exit` is called exactly once
if `sr_ctx` is non-NULL and not at all otherwise. -/
theorem version_help_frame (H : Bool) (o : Opts) (w : World) (a : Fn)
    (ha : a = Fn.show_version ∨ a = Fn.show_help)
    (hcall : Event.call a ∈ (main H o w).trace) :
    (∃ pre post, (main H o w).trace = pre ++ Event.call a :: post ∧
      Event.ret Fn.sr_init true ∈ pre) ∧
    (o.opt_pds = false → ∀ f, is_decoder_pipeline_fn f = true →
      Event.call f ∉ (main H o w).trace) ∧
    (Event.ret a true ∈ (main H o w).trace →
      (Event.call Fn.srd_exit ∈ (main H o w).trace →
        Event.ret Fn.srd_exit true ∈ (main H o w).trace) →
      (calls (main H o w).trace).count Fn.sr_exit = if w.sr_init_ctx = true then 1 else 0) := by
  have hact : is_action a = true := by rcases ha with rfl | rfl <;> rfl
  have hne : a ≠ Fn.set_options := by rcases ha with rfl | rfl <;> simp
  have hne2 : a ≠ Fn.srd_exit ∧ a ≠ Fn.sr_exit := by rcases ha with rfl | rfl <;> simp
  have hne3 : Fn.srd_exit ≠ a ∧ Fn.sr_exit ≠ a := ⟨fun h => hne2.1 h.symm, fun h => hne2.2 h.symm⟩
  -- the action is entered after a complete, successful setup
  obtain ⟨hp, hfb, hfin⟩ : step_ok w Fn.parse_options = true ∧
      first_bad w (setup_steps H o) = none ∧
      a ∈ calls (finish H o w (globals_after w (setup_steps H o) initial_globals)).events := by
    rcases mem_main_calls H o w a ((mem_calls a _).mpr hcall) with rfl | rfl | ⟨hp, hs | ht⟩
    · cases hact
    · cases hact
    · have := setup_not_action a
        (setup_steps_are_setup H o a ((entered_initial w _).subset hs))
      rw [hact] at this
      cases this
    · exact ⟨hp, action_in_tail H o w a hact ht⟩
  have h1 : log_exits (w.logs Fn.parse_options) = false := by
    simp only [step_ok, Bool.and_eq_true, Bool.not_eq_true'] at hp
    exact hp.1
  have h2 : w.ok Fn.parse_options = true := by
    simp only [step_ok, Bool.and_eq_true] at hp
    exact hp.2
  have hsel : selected_action H o = a := by
    have := finish_actions H o w (globals_after w (setup_steps H o) initial_globals)
    have hm : a ∈ (calls (finish H o w
        (globals_after w (setup_steps H o) initial_globals)).events).filter is_action :=
      List.mem_filter.mpr ⟨hfin, hact⟩
    rw [this, List.mem_singleton] at hm
    exact hm.symm
  have hF := finish_of_action H o w a (globals_after w (setup_steps H o) initial_globals)
    (dispatch_of_selected H o w a hsel hne)
  have htrace : (main H o w).trace = prologue o w ++ (setup_res H o w).events ++
      (finish H o w (globals_after w (setup_steps H o) initial_globals)).events := by
    rw [main_cases]
    simp [h1, h2, hfb]
  have hinit : Event.ret Fn.sr_init true ∈ (setup_res H o w).events := by
    have hok := all_ok_of_first_bad_none w _ hfb Fn.sr_init (sr_init_mem_setup_steps H o)
    have hmem : Fn.sr_init ∈ entered w (setup_steps H o) := by
      rw [entered_of_all_ok w _ hfb]
      exact sr_init_mem_setup_steps H o
    simp only [step_ok, Bool.and_eq_true, Bool.not_eq_true'] at hok
    have := run_steps_ret_mem o w (setup_steps H o) initial_globals _ hmem hok.1
    rwa [hok.2] at this
  have hctx : (globals_after w (setup_steps H o) initial_globals).sr_ctx = w.sr_init_ctx := by
    simp [globals_after, sr_init_mem_setup_steps]
  have hnoret : ∀ f b, is_setup_step f = false → f ≠ Fn.g_log_set_default_handler →
      f ≠ Fn.parse_options → Event.ret f b ∉ prologue o w ++ (setup_res H o w).events := by
    intro f b hf hf1 hf2 hm
    rcases List.mem_append.mp hm with hm | hm
    · rcases prologue_ret o w f b hm with h | h
      · exact hf1 h
      · exact hf2 h
    · rw [setup_ret_is_setup H o w f b hm] at hf
      cases hf
  refine ⟨?_, decoder_fn_not_called H o w, ?_⟩
  · refine ⟨prologue o w ++ (setup_res H o w).events,
      (finish H o w (globals_after w (setup_steps H o) initial_globals)).events.tail, ?_, ?_⟩
    · rw [htrace, hF]
      split_ifs <;> simp
    · simp [hinit]
  · intro hret hsrd
    rw [htrace, hF] at hret hsrd
    have hra := hnoret a true (by rcases ha with rfl | rfl <;> rfl)
      (by rcases ha with rfl | rfl <;> simp) (by rcases ha with rfl | rfl <;> simp)
    have hrs := hnoret Fn.srd_exit true rfl (by simp) (by simp)
    have hcount : (calls (prologue o w ++ (setup_res H o w).events)).count Fn.sr_exit = 0 := by
      rw [calls_append, prologue_calls, setup_res, run_steps_calls, List.count_append,
        entered_count_tail_fn H o w Fn.sr_exit rfl]
      rfl
    rw [htrace, hF]
    by_cases hxa : log_exits (w.logs a) = true
    · simp only [hxa, ↓reduceIte, List.mem_append, List.mem_cons, reduceCtorEq,
        ret_not_mem_log_events, or_false, false_or] at hret
      exact absurd (List.mem_append.mpr hret) hra
    · simp only [hxa, Bool.false_eq_true, ↓reduceIte, teardown_eq, done_eq, hctx] at hsrd ⊢
      rw [calls_append, List.count_append, hcount]
      by_cases hpds : (H && o.opt_pds) = true
      · by_cases hxs : log_exits (w.logs Fn.srd_exit) = true
        · exfalso
          simp only [hpds, hxs, ↓reduceIte] at hsrd
          have := hsrd (by simp)
          simp only [List.mem_append, List.mem_cons, reduceCtorEq, ret_not_mem_log_events,
            Event.ret.injEq, hne3.1, false_and, List.not_mem_nil, or_false, false_or,
            List.mem_singleton] at this
          exact hrs (List.mem_append.mpr this)
        · simp only [hpds, hxs, Bool.false_eq_true, ↓reduceIte]
          by_cases hc : w.sr_init_ctx = true <;>
            by_cases hxe : log_exits (w.logs Fn.sr_exit) = true <;>
            simp [hc, hxe, calls, calls_append, calls_log_events, hne2.2] <;>
            rcases ha with rfl | rfl <;> rfl
      · simp only [hpds, Bool.false_eq_true, ↓reduceIte]
        by_cases hc : w.sr_init_ctx = true <;>
          by_cases hxe : log_exits (w.logs Fn.sr_exit) = true <;>
          simp [hc, hxe, calls, calls_append, calls_log_events, hne2.2] <;>
          rcases ha with rfl | rfl <;> rfl

theorem version_help_frame_witness :
    Event.call Fn.show_help ∈ (main true opts_none world_ok).trace ∧
    (calls (main true opts_none world_ok).trace).count Fn.sr_exit = 1 :=
  ⟨by decide,
    ((version_help_frame true opts_none world_ok Fn.show_help (Or.inr rfl) (by decide)).2.2
      (by decide) (by decide)).trans (by decide)⟩

/-- The message is printed exactly when one of the three severity bits is set or
the verbosity is above `SR_LOG_WARN`. -/
theorem logger_writes_iff (opt_loglevel : Int) (log_level : Nat) :
    logger_writes opt_loglevel log_level = true ↔
      (log_level &&& G_LOG_LEVEL_ERROR ≠ 0 ∨ log_level &&& G_LOG_LEVEL_CRITICAL ≠ 0 ∨
        log_level &&& G_LOG_LEVEL_WARNING ≠ 0) ∨ opt_loglevel > SR_LOG_WARN := by
  simp only [logger_writes, Nat.and_or_distrib_left, Bool.or_eq_true, bne_iff_ne, ne_eq,
    nat_or_eq_zero, decide_eq_true_eq, not_and_or, or_assoc]

/-- C10, write condition of `logger`: for every level mask and verbosity, `logger`
writes the message followed by a newline to the error stream and flushes that
stream if and only if the level has the fatal, critical or warning bit set or
`opt_loglevel` is greater than `SR_LOG_WARN`, and otherwise performs no stream
operation; it never writes to or flushes standard output; and what it does is the
same for every log domain. -/
theorem logger_write_condition (opt_loglevel : Int) (log_domain : String) (log_level : Nat)
    (message : String) :
    ((logger opt_loglevel log_domain log_level message).output =
        [Event.fprintf Stream.stderr (message ++ "\n"), Event.fflush Stream.stderr] ↔
      ((log_level &&& G_LOG_LEVEL_ERROR ≠ 0 ∨ log_level &&& G_LOG_LEVEL_CRITICAL ≠ 0 ∨
        log_level &&& G_LOG_LEVEL_WARNING ≠ 0) ∨ opt_loglevel > SR_LOG_WARN)) ∧
    ((logger opt_loglevel log_domain log_level message).output = [] ↔
      ¬((log_level &&& G_LOG_LEVEL_ERROR ≠ 0 ∨ log_level &&& G_LOG_LEVEL_CRITICAL ≠ 0 ∨
        log_level &&& G_LOG_LEVEL_WARNING ≠ 0) ∨ opt_loglevel > SR_LOG_WARN)) ∧
    (∀ text, Event.fprintf Stream.stdout text ∉
        (logger opt_loglevel log_domain log_level message).output) ∧
    Event.fflush Stream.stdout ∉ (logger opt_loglevel log_domain log_level message).output ∧
    (∀ other_domain, logger opt_loglevel other_domain log_level message =
        logger opt_loglevel log_domain log_level message) := by
  rw [← logger_writes_iff]
  refine ⟨?_, ?_, ?_, ?_, fun _ => rfl⟩ <;>
    simp only [logger] <;> split_ifs <;> simp_all

theorem logger_write_condition_witness :
    (logger 2 "sr" 32 "hello").output = [] ∧
    (logger 3 "sr" 32 "hello").output =
      [Event.fprintf Stream.stderr "hello\n", Event.fflush Stream.stderr] :=
  ⟨(logger_write_condition 2 "sr" 32 "hello").2.1.mpr (by decide),
    (logger_write_condition 3 "sr" 32 "hello").1.mpr (by decide)⟩

/-- C11, termination by `logger`: for every level mask and verbosity, `logger` calls
`exit(1)` if and only if the level has the fatal (`G_LOG_LEVEL_ERROR`) or the
critical bit set, and otherwise does not call `exit`; in every terminating call,
whatever the verbosity, the message followed by a newline has been written to the
error stream and the stream flushed, and these are the last events of the process;
a level that is exactly warning, message, info or debug never terminates. -/
theorem logger_termination (o : Opts) (log_domain : String) (log_level : Nat)
    (message : String) (g : Globals) :
    ((logger o.opt_loglevel log_domain log_level message).exits = some 1 ↔
      (log_level &&& G_LOG_LEVEL_ERROR ≠ 0 ∨ log_level &&& G_LOG_LEVEL_CRITICAL ≠ 0)) ∧
    ((logger o.opt_loglevel log_domain log_level message).exits = none ↔
      ¬(log_level &&& G_LOG_LEVEL_ERROR ≠ 0 ∨ log_level &&& G_LOG_LEVEL_CRITICAL ≠ 0)) ∧
    ((logger o.opt_loglevel log_domain log_level message).exits ≠ none →
      (logger o.opt_loglevel log_domain log_level message).output =
          [Event.fprintf Stream.stderr (message ++ "\n"), Event.fflush Stream.stderr] ∧
        g_log o { log_domain := log_domain, log_level := log_level, message := message } g =
          { events := [Event.log log_domain log_level message,
              Event.fprintf Stream.stderr (message ++ "\n"), Event.fflush Stream.stderr],
            out := Outcome.halt 1 }) ∧
    (log_level = G_LOG_LEVEL_WARNING ∨ log_level = G_LOG_LEVEL_MESSAGE ∨
        log_level = G_LOG_LEVEL_INFO ∨ log_level = G_LOG_LEVEL_DEBUG →
      (logger o.opt_loglevel log_domain log_level message).exits = none) := by
  rw [← logger_exits_iff]
  refine ⟨?_, ?_, ?_, ?_⟩
  · simp only [logger]
    split_ifs <;> simp_all
  · simp only [logger]
    split_ifs <;> simp_all
  · intro h
    have hx : logger_exits log_level = true := by
      simp only [logger] at h
      split_ifs at h with hx
      · exact hx
      · exact absurd rfl h
    have hw : logger_writes o.opt_loglevel log_level = true := by
      have h1 := (logger_exits_iff log_level).mp hx
      apply (logger_writes_iff o.opt_loglevel log_level).mpr
      rcases h1 with h1 | h1
      · exact Or.inl (Or.inl h1)
      · exact Or.inl (Or.inr (Or.inl h1))
    simp [g_log, logger, hx, hw]
  · intro h
    have hx : logger_exits log_level = false := by
      rcases h with h | h | h | h <;> subst h <;> decide
    simp [logger, hx]

theorem logger_termination_witness :
    (logger 0 "" G_LOG_LEVEL_CRITICAL "Failed to open device.").exits ≠ none ∧
    (logger 0 "" G_LOG_LEVEL_CRITICAL "Failed to open device.").output =
      [Event.fprintf Stream.stderr "Failed to open device.\n", Event.fflush Stream.stderr] :=
  ⟨by decide,
    ((logger_termination { opts_none with opt_loglevel := 0 } "" G_LOG_LEVEL_CRITICAL
      "Failed to open device." initial_globals).2.2.1 (by decide)).1⟩

theorem enable_selected_other (sel : List Nat) (l : List Nat) (mem : Nat → sr_channel)
    (ch : Nat) (h : ch ∉ l) : enable_selected sel l mem ch = mem ch := by
  induction l generalizing mem with
  | nil => rfl
  | cons a l ih =>
    simp only [List.mem_cons, not_or] at h
    rw [enable_selected, ih _ h.2, Function.update_noteq h.1]

theorem enable_selected_fields (sel : List Nat) (l : List Nat) (mem : Nat → sr_channel)
    (ch : Nat) :
    (enable_selected sel l mem ch).index = (mem ch).index ∧
    (enable_selected sel l mem ch).type = (mem ch).type ∧
    (enable_selected sel l mem ch).name = (mem ch).name := by
  induction l generalizing mem with
  | nil => exact ⟨rfl, rfl, rfl⟩
  | cons a l ih =>
    rw [enable_selected]
    obtain ⟨h1, h2, h3⟩ := ih (Function.update mem a
      { mem a with enabled := g_slist_find sel a })
    rw [h1, h2, h3]
    by_cases hc : ch = a
    · subst hc
      simp
    · simp [Function.update_noteq hc]

theorem enable_selected_enabled (sel : List Nat) (l : List Nat) (mem : Nat → sr_channel)
    (ch : Nat) (h : ch ∈ l) :
    (enable_selected sel l mem ch).enabled = g_slist_find sel ch := by
  induction l generalizing mem with
  | nil => simp at h
  | cons a l ih =>
    rw [enable_selected]
    by_cases hl : ch ∈ l
    · exact ih _ hl
    · have hc : ch = a := by
        rcases List.mem_cons.mp h with h | h
        · exact h
        · exact absurd h hl
      subst hc
      rw [enable_selected_other sel l _ ch hl]
      simp

/-- C19, `select_channels` with a selection: when `opt_channels` is set and
`parse_channelstring` returns a non-empty list, `select_channels` returns `SR_OK`,
and afterwards every channel of the device is enabled if and only if it is in the
selected list (so channels outside the list are disabled even if enabled before);
the device's channel list is the same list in the same order, every other field of
every channel is unchanged, and channels that are not of the device are untouched. -/
theorem select_channels_selection (H : Bool) (o : Opts) (parsed : List Nat)
    (sdi : sr_dev_inst) (mem : Nat → sr_channel)
    (hopt : o.opt_channels = true) (hsel : parsed ≠ []) :
    (select_channels H o parsed sdi mem).ret = SR_OK ∧
    (∀ ch ∈ sdi.channels,
      ((select_channels H o parsed sdi mem).mem ch).enabled = true ↔ ch ∈ parsed) ∧
    (select_channels H o parsed sdi mem).sdi = sdi ∧
    (∀ ch, ((select_channels H o parsed sdi mem).mem ch).index = (mem ch).index ∧
      ((select_channels H o parsed sdi mem).mem ch).type = (mem ch).type ∧
      ((select_channels H o parsed sdi mem).mem ch).name = (mem ch).name) ∧
    (∀ ch, ch ∉ sdi.channels → (select_channels H o parsed sdi mem).mem ch = mem ch) := by
  have hne : parsed.isEmpty = false := by
    cases parsed with
    | nil => exact absurd rfl hsel
    | cons a l => rfl
  simp only [select_channels, hopt, hne, ↓reduceIte, Bool.false_eq_true, true_and]
  refine ⟨fun ch hch => ?_, fun ch => enable_selected_fields parsed _ mem ch,
    fun ch hch => enable_selected_other parsed _ mem ch hch⟩
  rw [enable_selected_enabled parsed _ mem ch hch]
  simp [g_slist_find]

theorem select_channels_selection_witness :
    (opts_channels.opt_channels = true ∧ [3] ≠ ([] : List Nat)) ∧
    (select_channels true opts_channels [3] { channels := [1, 3] } mem_all_enabled).ret =
      SR_OK :=
  ⟨⟨rfl, by decide⟩,
    (select_channels_selection true opts_channels [3] { channels := [1, 3] } mem_all_enabled
      rfl (by decide)).1⟩

/-- C20, `select_channels` without a selection (decoder support given by
`HAVE_SRD`): it returns `SR_ERR` if and only if `opt_channels` is set and
`parse_channelstring` returns no channels, and then no channel is changed and
`map_pd_channels` is not called; when `opt_channels` is unset it returns `SR_OK`,
changes no channel, and calls `map_pd_channels` (exactly when decoder support is
compiled in). It returns nothing but `SR_OK` and `SR_ERR`. -/
theorem select_channels_error_and_noop (H : Bool) (o : Opts) (parsed : List Nat)
    (sdi : sr_dev_inst) (mem : Nat → sr_channel) :
    ((select_channels H o parsed sdi mem).ret = SR_ERR ↔
      (o.opt_channels = true ∧ parsed = [])) ∧
    ((select_channels H o parsed sdi mem).ret ≠ SR_ERR →
      (select_channels H o parsed sdi mem).ret = SR_OK) ∧
    (o.opt_channels = true ∧ parsed = [] →
      (select_channels H o parsed sdi mem).mem = mem ∧
      Fn.map_pd_channels ∉ (select_channels H o parsed sdi mem).calls) ∧
    (o.opt_channels = false →
      (select_channels H o parsed sdi mem).ret = SR_OK ∧
      (select_channels H o parsed sdi mem).mem = mem ∧
      (Fn.map_pd_channels ∈ (select_channels H o parsed sdi mem).calls ↔ H = true)) := by
  have hd : SR_OK ≠ SR_ERR := by decide
  refine ⟨?_, ?_, ?_, ?_⟩
  · cases parsed <;> cases ho : o.opt_channels <;> simp [select_channels, ho, hd]
  · cases parsed <;> cases ho : o.opt_channels <;> simp [select_channels, ho]
  · rintro ⟨ho, rfl⟩
    simp [select_channels, ho]
  · intro ho
    cases H <;> simp [select_channels, ho]

theorem select_channels_error_and_noop_witness :
    (opts_channels.opt_channels = true ∧ ([] : List Nat) = []) ∧
    (select_channels true opts_channels [] { channels := [1, 3] } mem_all_enabled).ret =
      SR_ERR :=
  ⟨⟨rfl, rfl⟩,
    (select_channels_error_and_noop true opts_channels [] { channels := [1, 3] }
      mem_all_enabled).1.mpr ⟨rfl, rfl⟩⟩

/-- What it means for the run that a top-level action is entered: argument
parsing and the whole setup succeeded, the action is the selected one, and the
trace is the prologue, the setup and the dispatch-and-teardown part. -/
theorem action_called (H : Bool) (o : Opts) (w : World) (a : Fn) (hact : is_action a = true)
    (hcall : Event.call a ∈ (main H o w).trace) :
    step_ok w Fn.parse_options = true ∧ first_bad w (setup_steps H o) = none ∧
      selected_action H o = a ∧
      (main H o w).trace = prologue o w ++ (setup_res H o w).events ++
        (finish H o w (globals_after w (setup_steps H o) initial_globals)).events ∧
      (main H o w).ending =
        ending_of (finish H o w (globals_after w (setup_steps H o) initial_globals)).out := by
  obtain ⟨hp, hfb, hfin⟩ : step_ok w Fn.parse_options = true ∧
      first_bad w (setup_steps H o) = none ∧
      a ∈ calls (finish H o w (globals_after w (setup_steps H o) initial_globals)).events := by
    rcases mem_main_calls H o w a ((mem_calls a _).mpr hcall) with rfl | rfl | ⟨hp, hs | ht⟩
    · cases hact
    · cases hact
    · have := setup_not_action a
        (setup_steps_are_setup H o a ((entered_initial w _).subset hs))
      rw [hact] at this
      cases this
    · exact ⟨hp, action_in_tail H o w a hact ht⟩
  have h1 : log_exits (w.logs Fn.parse_options) = false := by
    simp only [step_ok, Bool.and_eq_true, Bool.not_eq_true'] at hp
    exact hp.1
  have h2 : w.ok Fn.parse_options = true := by
    simp only [step_ok, Bool.and_eq_true] at hp
    exact hp.2
  have hsel : selected_action H o = a := by
    have := finish_actions H o w (globals_after w (setup_steps H o) initial_globals)
    have hm : a ∈ (calls (finish H o w
        (globals_after w (setup_steps H o) initial_globals)).events).filter is_action :=
      List.mem_filter.mpr ⟨hfin, hact⟩
    rw [this, List.mem_singleton] at hm
    exact hm.symm
  refine ⟨hp, hfb, hsel, ?_, ?_⟩ <;>
  · rw [main_cases]
    simp [h1, h2, hfb]

theorem ret_not_before_tail (H : Bool) (o : Opts) (w : World) (f : Fn) (b : Bool)
    (hf : is_setup_step f = false) (hf1 : f ≠ Fn.g_log_set_default_handler)
    (hf2 : f ≠ Fn.parse_options) :
    Event.ret f b ∉ prologue o w ++ (setup_res H o w).events := by
  intro hm
  rcases List.mem_append.mp hm with hm | hm
  · rcases prologue_ret o w f b hm with h | h
    · exact hf1 h
    · exact hf2 h
  · rw [setup_ret_is_setup H o w f b hm] at hf
    cases hf

theorem dispatch_set_options (H : Bool) (o : Opts) (w : World) (g : Globals)
    (h : selected_action H o = Fn.set_options) :
    dispatch H o w g =
      match (set_options o w g).out with
      | Outcome.cont _ g1 =>
        { events := Event.call Fn.set_options ::
            ((set_options o w g).events ++ [Event.ret Fn.set_options true]),
          out := Outcome.cont () g1 }
      | Outcome.halt c =>
        { events := Event.call Fn.set_options :: (set_options o w g).events,
          out := Outcome.halt c } := by
  have hd : dispatch H o w = (emit [Event.call Fn.set_options] >>= fun _ =>
      set_options o w >>= fun _ => emit [Event.ret Fn.set_options true]) := by
    revert h
    unfold dispatch selected_action
    split_ifs <;> simp
  rw [hd]
  simp only [bind_def, Proc.bind, emit]
  cases (set_options o w g).out <;> simp

/-- C12 fails on the code. With a device scan that finds no device, the option
mapping `devargs` was obtained (`parse_generic_arg` returned non-NULL) and the
action ends, by `exit(1)` in `logger` on "No devices found.", without
`g_hash_table_destroy` having been called. With a device that cannot be opened,
it ends without `g_slist_free` and without `g_hash_table_destroy`. -/
theorem set_options_leaks :
    (Event.call Fn.set_options ∈ (main true opts_set (world_failing Fn.device_scan)).trace ∧
      Event.ret Fn.parse_generic_arg true ∈
        (main true opts_set (world_failing Fn.device_scan)).trace ∧
      Event.ret Fn.device_scan false ∈
        (main true opts_set (world_failing Fn.device_scan)).trace ∧
      Event.call Fn.g_hash_table_destroy ∉
        (main true opts_set (world_failing Fn.device_scan)).trace ∧
      (set_options opts_set (world_failing Fn.device_scan) initial_globals).events =
        [Event.call Fn.parse_generic_arg, Event.ret Fn.parse_generic_arg true,
          Event.call Fn.device_scan, Event.ret Fn.device_scan false,
          Event.log "" G_LOG_LEVEL_CRITICAL "No devices found.",
          Event.fprintf Stream.stderr "No devices found.\n", Event.fflush Stream.stderr]) ∧
    (Event.ret Fn.parse_generic_arg true ∈
        (main true opts_set (world_failing Fn.sr_dev_open)).trace ∧
      Event.ret Fn.device_scan true ∈
        (main true opts_set (world_failing Fn.sr_dev_open)).trace ∧
      Event.ret Fn.sr_dev_open false ∈
        (main true opts_set (world_failing Fn.sr_dev_open)).trace ∧
      Event.call Fn.g_slist_free ∉
        (main true opts_set (world_failing Fn.sr_dev_open)).trace ∧
      Event.call Fn.g_hash_table_destroy ∉
        (main true opts_set (world_failing Fn.sr_dev_open)).trace) := by
  decide

/-- C14 as stated fails: with `opt_pds` unset, `srd_log_loglevel_set` is called all
the same, and when it fails the run is aborted before the requested device scan
is dispatched. -/
theorem decoder_verbosity_counterexample :
    opts_scan.opt_pds = false ∧
    Event.call Fn.srd_log_loglevel_set ∈
      (main true opts_scan (world_failing Fn.srd_log_loglevel_set)).trace ∧
    Event.call Fn.show_dev_list ∉
      (main true opts_scan (world_failing Fn.srd_log_loglevel_set)).trace := by
  decide

theorem setup_steps_no_pds_eq (o : Opts) (h : o.opt_pds = false) :
    setup_steps true o = [Fn.sr_log_loglevel_set, Fn.sr_init, Fn.srd_log_loglevel_set] := by
  simp [setup_steps, h]

/-- C14 amended, the verbosity of the decoder library (decoder support compiled
in): in every run, whether or not `opt_pds` is set, `srd_log_loglevel_set` is
called as soon as `sr_init` has succeeded, and when it returns failure no action
is dispatched. In every run with `opt_pds` unset it is the only decoder-library
call (no context, session, registration, stack, sink, callback or `srd_exit` call
is made), so that when `parse_options`, `sr_log_loglevel_set`, `sr_init` and
`srd_log_loglevel_set` succeed, the selected action is dispatched. -/
theorem decoder_verbosity_without_pds (o : Opts) (w : World) :
    (Event.ret Fn.sr_init true ∈ (main true o w).trace →
      Event.call Fn.srd_log_loglevel_set ∈ (main true o w).trace) ∧
    (Event.ret Fn.srd_log_loglevel_set false ∈ (main true o w).trace →
      ∀ a, is_action a = true → Event.call a ∉ (main true o w).trace) ∧
    (o.opt_pds = false →
      ∀ f, is_decoder_pipeline_fn f = true → Event.call f ∉ (main true o w).trace) ∧
    (o.opt_pds = false →
      Event.ret Fn.parse_options true ∈ (main true o w).trace →
      Event.ret Fn.sr_log_loglevel_set true ∈ (main true o w).trace →
      Event.ret Fn.sr_init true ∈ (main true o w).trace →
      Event.ret Fn.srd_log_loglevel_set true ∈ (main true o w).trace →
      (calls (main true o w).trace).filter is_action = [selected_action true o]) := by
  refine ⟨fun hinit => ?_, fun hfail a ha hcall => ?_,
    fun hpds => decoder_fn_not_called true o w hpds, fun hpds hparse h1 h2 h3 => ?_⟩
  · obtain ⟨hp, hs⟩ := setup_ret_mem true o w Fn.sr_init true rfl hinit
    obtain ⟨hmem, hx, hk⟩ := run_steps_ret o w _ _ _ _ hs
    have hok : step_ok w Fn.sr_init = true := by simp [step_ok, hx, ← hk]
    rw [← mem_calls]
    apply entered_mem_main true o w _ hp
    simp only [setup_steps, ↓reduceIte, List.cons_append, List.nil_append, entered,
      List.mem_cons] at hmem ⊢
    by_cases h0 : step_ok w Fn.sr_log_loglevel_set = true
    · simp [h0, hok]
    · simp [h0] at hmem
  · obtain ⟨-, hfb, -, -⟩ := setup_failure_facts true o w Fn.srd_log_loglevel_set rfl hfail
    obtain ⟨-, hnone, -⟩ := action_called true o w a ha hcall
    rw [hnone] at hfb
    cases hfb
  · have hsteps := setup_steps_no_pds_eq o hpds
    apply main_actions true o w hparse
    intro f hf hstep
    obtain ⟨-, hs | ht⟩ : step_ok w Fn.parse_options = true ∧
        (f ∈ entered w (setup_steps true o) ∨ f ∈ tail_calls true o w) := by
      rcases mem_main_calls true o w f hf with rfl | rfl | h
      · cases hstep
      · cases hstep
      · exact h
    · have := (entered_initial w _).subset hs
      rw [hsteps] at this
      simp only [List.mem_cons, List.not_mem_nil, or_false] at this
      rcases this with rfl | rfl | rfl
      · exact h1
      · exact h2
      · exact h3
    · have := tail_not_setup f (tail_calls_tail true o w f ht)
      rw [hstep] at this
      cases this

theorem decoder_verbosity_without_pds_witness :
    (Event.ret Fn.sr_init true ∈ (main true opts_pds_show world_ok).trace ∧
      Event.call Fn.srd_log_loglevel_set ∈ (main true opts_pds_show world_ok).trace) ∧
    (opts_scan.opt_pds = false ∧
      (calls (main true opts_scan world_ok).trace).filter is_action = [Fn.show_dev_list]) :=
  ⟨⟨by decide, (decoder_verbosity_without_pds opts_pds_show world_ok).1 (by decide)⟩,
    ⟨rfl, (decoder_verbosity_without_pds opts_scan world_ok).2.2.2 rfl (by decide)
      (by decide) (by decide) (by decide)⟩⟩

theorem sr_init_returned_iff (H : Bool) (o : Opts) (w : World) :
    (∃ b, Event.ret Fn.sr_init b ∈ (main H o w).trace) ↔
      (step_ok w Fn.parse_options = true ∧ Fn.sr_init ∈ entered w (setup_steps H o) ∧
        log_exits (w.logs Fn.sr_init) = false) := by
  constructor
  · rintro ⟨b, hb⟩
    obtain ⟨hp, hs⟩ := setup_ret_mem H o w Fn.sr_init b rfl hb
    obtain ⟨hmem, hx, -⟩ := run_steps_ret o w _ _ _ _ hs
    exact ⟨hp, hmem, hx⟩
  · rintro ⟨hp, hmem, hx⟩
    exact ⟨w.ok Fn.sr_init, setup_events_sub_main H o w _ hp
      (run_steps_ret_mem o w (setup_steps H o) initial_globals _ hmem hx)⟩

theorem dispatch_no_teardown_call (H : Bool) (o : Opts) (w : World) (g : Globals) (f : Fn)
    (hf : is_teardown_fn f = true) : f ∉ calls (dispatch H o w g).events := by
  intro hm
  have := (dispatch_tame H o w).call_mem g f ((mem_calls f _).mp hm)
  revert hf this
  cases f <;> simp [is_teardown_fn, is_dispatch_fn, is_action]

theorem finish_calls_returned (H : Bool) (o : Opts) (w : World) (g g1 : Globals) (st : Int)
    (h : (finish H o w g).out = Outcome.cont st g1) :
    calls (finish H o w g).events = calls (dispatch H o w g).events ++
      ((if (H && o.opt_pds) = true then [Fn.srd_exit] else []) ++
        (if g.sr_ctx = true then [Fn.sr_exit] else [])) := by
  rw [finish_eq] at h ⊢
  cases hd : (dispatch H o w g).out with
  | halt c =>
    simp only [hd] at h
    cases h
  | cont a g2 =>
    simp only [hd] at h ⊢
    rw [calls_append]
    congr 1
    rw [teardown_eq] at h ⊢
    by_cases hpds : (H && o.opt_pds) = true
    · simp only [hpds, ↓reduceIte] at h ⊢
      by_cases hx : log_exits (w.logs Fn.srd_exit) = true
      · simp only [hx, ↓reduceIte] at h
        cases h
      · simp [hx, calls, calls_append, calls_log_events, done_calls]
    · simp [hpds, done_calls]

theorem entered_no_teardown (H : Bool) (o : Opts) (w : World) (f : Fn)
    (hf : is_teardown_fn f = true) : f ∉ entered w (setup_steps H o) := by
  intro hm
  have := setup_steps_are_setup H o f ((entered_initial w _).subset hm)
  revert hf this
  cases f <;> simp [is_teardown_fn, is_setup_step]

/-- C15, release of the acquisition context: in every run that ends by returning
from `main`, if `sr_init` returned and left `sr_ctx` non-NULL then `sr_exit` is
called exactly once and it is the last call of the run; if `sr_init` was not
reached, did not return, or left `sr_ctx` NULL, `sr_exit` is not called. -/
theorem sr_exit_release (H : Bool) (o : Opts) (w : World) (s : Int)
    (hret : (main H o w).ending = Ending.returned s) :
    (((∃ b, Event.ret Fn.sr_init b ∈ (main H o w).trace) ∧ w.sr_init_ctx = true) →
      ∃ l, calls (main H o w).trace = l ++ [Fn.sr_exit] ∧ Fn.sr_exit ∉ l) ∧
    (¬((∃ b, Event.ret Fn.sr_init b ∈ (main H o w).trace) ∧ w.sr_init_ctx = true) →
      Fn.sr_exit ∉ calls (main H o w).trace) := by
  rw [sr_init_returned_iff, main_calls]
  rw [main_cases] at hret
  by_cases h1 : log_exits (w.logs Fn.parse_options) = true
  · simp [h1] at hret
  rcases Bool.eq_false_or_eq_true (w.ok Fn.parse_options) with h2 | h2
  swap
  · simp [step_ok, h2]
  have hp : step_ok w Fn.parse_options = true := by
    simp only [Bool.not_eq_true] at h1
    simp [step_ok, h1, h2]
  simp only [h1, h2, Bool.false_eq_true, ↓reduceIte, reduceCtorEq] at hret
  simp only [hp, ↓reduceIte, true_and]
  have hne : Fn.sr_exit ∉ [Fn.g_log_set_default_handler, Fn.parse_options] := by simp
  have hent := entered_no_teardown H o w Fn.sr_exit rfl
  cases hfb : first_bad w (setup_steps H o) with
  | none =>
    simp only [hfb] at hret
    have hall := all_ok_of_first_bad_none w _ hfb Fn.sr_init (sr_init_mem_setup_steps H o)
    have hmem : Fn.sr_init ∈ entered w (setup_steps H o) := by
      rw [entered_of_all_ok w _ hfb]
      exact sr_init_mem_setup_steps H o
    have hx : log_exits (w.logs Fn.sr_init) = false := by
      simp only [step_ok, Bool.and_eq_true, Bool.not_eq_true'] at hall
      exact hall.1
    have hctx : (globals_after w (setup_steps H o) initial_globals).sr_ctx = w.sr_init_ctx := by
      simp [globals_after, sr_init_mem_setup_steps]
    cases hout : (finish H o w (globals_after w (setup_steps H o) initial_globals)).out with
    | halt c =>
      rw [hout] at hret
      cases hret
    | cont st g1 =>
      have hcalls := finish_calls_returned H o w _ g1 st hout
      have hd := dispatch_no_teardown_call H o w
        (globals_after w (setup_steps H o) initial_globals) Fn.sr_exit rfl
      simp only [tail_calls, hfb, hcalls, hctx, hmem, hx, true_and]
      constructor
      · intro hc
        refine ⟨[Fn.g_log_set_default_handler, Fn.parse_options] ++
          (entered w (setup_steps H o) ++ (calls (dispatch H o w
            (globals_after w (setup_steps H o) initial_globals)).events ++
            (if (H && o.opt_pds) = true then [Fn.srd_exit] else []))), ?_, ?_⟩
        · simp [hc]
        · simp only [List.mem_append, not_or]
          refine ⟨hne, hent, hd, ?_⟩
          split_ifs <;> simp
      · intro hc
        simp only [List.mem_append, not_or]
        refine ⟨hne, hent, hd, ?_, ?_⟩
        · split_ifs <;> simp
        · simp [hc]
  | some f =>
    simp only [hfb] at hret
    by_cases h3 : log_exits (w.logs f) = true ∨ f = Fn.srd_session_new
    · simp [h3] at hret
    · have hx : Fn.sr_init ∈ entered w (setup_steps H o) →
          log_exits (w.logs Fn.sr_init) = false := by
        intro hmem
        rcases Bool.eq_false_or_eq_true (step_ok w Fn.sr_init) with hk | hk
        · simp only [step_ok, Bool.and_eq_true, Bool.not_eq_true'] at hk
          exact hk.1
        · have := first_bad_of_mem_entered w _ _ hmem hk
          rw [hfb] at this
          cases this
          simpa using fun h => h3 (Or.inl h)
      simp only [tail_calls, hfb, h3, ↓reduceIte, done_calls, globals_after, initial_globals]
      constructor
      · rintro ⟨⟨hmem, -⟩, hc⟩
        refine ⟨[Fn.g_log_set_default_handler, Fn.parse_options] ++
          entered w (setup_steps H o), ?_, ?_⟩
        · simp [hmem, hc]
        · simp only [List.mem_append, not_or]
          exact ⟨hne, hent⟩
      · intro hc
        simp only [List.mem_append, not_or]
        refine ⟨hne, hent, ?_⟩
        by_cases hmem : Fn.sr_init ∈ entered w (setup_steps H o)
        · have hcf : ¬w.sr_init_ctx = true := fun h => hc ⟨⟨hmem, hx hmem⟩, h⟩
          simp [hmem, hcf]
        · simp [hmem]

theorem sr_exit_release_witness :
    (main true opts_pds_show (world_failing Fn.register_pds)).ending = Ending.returned 0 ∧
    ∃ l, calls (main true opts_pds_show (world_failing Fn.register_pds)).trace =
      l ++ [Fn.sr_exit] ∧ Fn.sr_exit ∉ l :=
  ⟨by decide,
    (sr_exit_release true opts_pds_show (world_failing Fn.register_pds) 0 (by decide)).1
      ⟨⟨true, by decide⟩, by decide⟩⟩

theorem dispatch_returned (H : Bool) (o : Opts) (w : World) (g : Globals)
    (h : Event.ret (selected_action H o) true ∈ (dispatch H o w g).events) :
    ∃ g1, (dispatch H o w g).out = Outcome.cont () g1 := by
  by_cases hs : selected_action H o = Fn.set_options
  · rw [hs] at h
    rw [dispatch_set_options H o w g hs] at h ⊢
    cases hout : (set_options o w g).out with
    | cont a g1 => exact ⟨g1, rfl⟩
    | halt c =>
      exfalso
      simp only [hout, List.mem_cons, reduceCtorEq, false_or] at h
      have := (set_options_tame o w).ret_mem g _ _ h
      cases this
  · rw [dispatch_of_selected H o w _ rfl hs] at h ⊢
    simp only [action, callv_eq] at h ⊢
    by_cases hx : log_exits (w.logs (selected_action H o)) = true
    · simp [hx, ret_not_mem_log_events] at h
    · exact ⟨g, by simp [hx]⟩

theorem selected_is_action (H : Bool) (o : Opts) : is_action (selected_action H o) = true := by
  unfold selected_action
  split_ifs <;> rfl

theorem action_ret_in_dispatch (H : Bool) (o : Opts) (w : World) (g : Globals) (a : Fn)
    (b : Bool) (ha : is_action a = true) (h : Event.ret a b ∈ (finish H o w g).events) :
    Event.ret a b ∈ (dispatch H o w g).events := by
  rw [finish_eq] at h
  cases hd : (dispatch H o w g).out with
  | halt c =>
    simpa only [hd] using h
  | cont x g2 =>
    simp only [hd, List.mem_append] at h
    rcases h with h | h
    · exact h
    · have := teardown_not_action a ((teardown_tame H o w).ret_mem g a b h)
      rw [ha] at this
      cases this

/-- C16 as stated fails: with decoding requested, `sr_log_loglevel_set`, `sr_init`
and `srd_log_loglevel_set` succeeding and `srd_init` failing, a critical message
logged while `sr_exit` runs makes `logger` end the process with status 1, so `main`
does not return 0; and when `sr_init` returned success without storing a context,
`sr_exit` is not called at all. -/
theorem decoder_init_failure_counterexample :
    (opts_pds.opt_pds = true ∧
      Event.ret Fn.sr_log_loglevel_set true ∈
        (main true opts_pds world_srd_init_fails_exit_critical).trace ∧
      Event.ret Fn.sr_init true ∈
        (main true opts_pds world_srd_init_fails_exit_critical).trace ∧
      Event.ret Fn.srd_log_loglevel_set true ∈
        (main true opts_pds world_srd_init_fails_exit_critical).trace ∧
      Event.ret Fn.srd_init false ∈
        (main true opts_pds world_srd_init_fails_exit_critical).trace ∧
      (main true opts_pds world_srd_init_fails_exit_critical).ending = Ending.exited 1 ∧
      (main true opts_pds world_srd_init_fails_exit_critical).ending ≠ Ending.returned 0) ∧
    (Event.ret Fn.sr_log_loglevel_set true ∈
        (main true opts_pds world_srd_init_fails_no_context).trace ∧
      Event.ret Fn.sr_init true ∈
        (main true opts_pds world_srd_init_fails_no_context).trace ∧
      Event.ret Fn.srd_log_loglevel_set true ∈
        (main true opts_pds world_srd_init_fails_no_context).trace ∧
      Event.ret Fn.srd_init false ∈
        (main true opts_pds world_srd_init_fails_no_context).trace ∧
      (calls (main true opts_pds world_srd_init_fails_no_context).trace).count Fn.sr_exit = 0) := by
  decide

/-- C16 amended, failure of the decoder-context creation: in every run in which
`srd_init` returns failure, decoding was requested and `sr_log_loglevel_set`,
`sr_init` and `srd_log_loglevel_set` had succeeded; `srd_session_new` is never
called, no action is dispatched and `srd_exit` is not called; `sr_exit` is called
exactly once if `sr_init` left `sr_ctx` non-NULL and not at all otherwise; and
`main` returns 0, unless `sr_exit` is called and logs a fatal or critical message,
on which `logger` ends the process with status 1. -/
theorem decoder_init_failure (H : Bool) (o : Opts) (w : World)
    (hfail : Event.ret Fn.srd_init false ∈ (main H o w).trace) :
    (o.opt_pds = true ∧ Event.ret Fn.sr_log_loglevel_set true ∈ (main H o w).trace ∧
      Event.ret Fn.sr_init true ∈ (main H o w).trace ∧
      Event.ret Fn.srd_log_loglevel_set true ∈ (main H o w).trace) ∧
    Event.call Fn.srd_session_new ∉ (main H o w).trace ∧
    (∀ a, is_action a = true → Event.call a ∉ (main H o w).trace) ∧
    Event.call Fn.srd_exit ∉ (main H o w).trace ∧
    (calls (main H o w).trace).count Fn.sr_exit = (if w.sr_init_ctx = true then 1 else 0) ∧
    (main H o w).ending =
      (if w.sr_init_ctx = true ∧ log_exits (w.logs Fn.sr_exit) = true then Ending.exited 1
        else Ending.returned 0) := by
  obtain ⟨hp, hfb, hx, hk⟩ := setup_failure_facts H o w Fn.srd_init rfl hfail
  obtain ⟨hmem, hbad⟩ := first_bad_mem_entered w _ _ hfb
  have hin := (entered_initial w _).subset hmem
  have hH : H = true ∧ o.opt_pds = true := by
    revert hin
    simp only [setup_steps]
    cases H <;> cases o.opt_pds <;> simp
  obtain ⟨rfl, hpds⟩ := hH
  have hsteps : setup_steps true o = Fn.sr_log_loglevel_set :: Fn.sr_init ::
      Fn.srd_log_loglevel_set :: Fn.srd_init ::
      ([Fn.srd_session_new, Fn.register_pds, Fn.setup_pd_stack] ++ sink_steps o) := by
    simp [setup_steps, hpds]
  obtain ⟨ok1, ok2, ok3⟩ : step_ok w Fn.sr_log_loglevel_set = true ∧
      step_ok w Fn.sr_init = true ∧ step_ok w Fn.srd_log_loglevel_set = true := by
    have := hfb
    rw [hsteps] at this
    simp only [first_bad, List.find?_cons] at this
    cases h1 : step_ok w Fn.sr_log_loglevel_set <;> cases h2 : step_ok w Fn.sr_init <;>
      cases h3 : step_ok w Fn.srd_log_loglevel_set <;> simp [h1, h2, h3] at this ⊢
  have hent : entered w (setup_steps true o) = [Fn.sr_log_loglevel_set, Fn.sr_init,
      Fn.srd_log_loglevel_set, Fn.srd_init] := by
    rw [hsteps]
    simp [entered, ok1, ok2, ok3, hbad]
  have h1 : log_exits (w.logs Fn.parse_options) = false := by
    simp only [step_ok, Bool.and_eq_true, Bool.not_eq_true'] at hp
    exact hp.1
  have h2 : w.ok Fn.parse_options = true := by
    simp only [step_ok, Bool.and_eq_true] at hp
    exact hp.2
  have hcalls : calls (main true o w).trace = [Fn.g_log_set_default_handler, Fn.parse_options,
      Fn.sr_log_loglevel_set, Fn.sr_init, Fn.srd_log_loglevel_set, Fn.srd_init] ++
      (if w.sr_init_ctx = true then [Fn.sr_exit] else []) := by
    rw [main_calls]
    simp [hp, hent, tail_calls, hfb, hx, done_calls, globals_after]
  have hretmem : ∀ f, f ∈ entered w (setup_steps true o) → step_ok w f = true →
      Event.ret f true ∈ (main true o w).trace := by
    intro f hf hok
    simp only [step_ok, Bool.and_eq_true, Bool.not_eq_true'] at hok
    have := run_steps_ret_mem o w (setup_steps true o) initial_globals f hf hok.1
    rw [hok.2] at this
    exact setup_events_sub_main true o w _ hp this
  refine ⟨⟨hpds, hretmem _ (by simp [hent]) ok1, hretmem _ (by simp [hent]) ok2,
    hretmem _ (by simp [hent]) ok3⟩, ?_, ?_, ?_, ?_, ?_⟩
  · rw [← mem_calls, hcalls]
    split_ifs <;> decide
  · intro a ha
    rw [← mem_calls, hcalls]
    revert ha
    split_ifs <;> cases a <;> simp [is_action]
  · rw [← mem_calls, hcalls]
    split_ifs <;> decide
  · rw [hcalls]
    split_ifs <;> decide
  · rw [main_cases]
    by_cases hctx : w.sr_init_ctx = true <;>
      by_cases hexit : log_exits (w.logs Fn.sr_exit) = true <;>
      simp [h1, h2, hfb, hx, done_eq, globals_after, hent, hctx, hexit, ending_of]

theorem decoder_init_failure_witness :
    Event.ret Fn.srd_init false ∈ (main true opts_pds (world_failing Fn.srd_init)).trace ∧
    (calls (main true opts_pds (world_failing Fn.srd_init)).trace).count Fn.sr_exit = 1 ∧
    (main true opts_pds (world_failing Fn.srd_init)).ending = Ending.returned 0 :=
  ⟨by decide,
    (decoder_init_failure true opts_pds (world_failing Fn.srd_init)
      (by decide)).2.2.2.2.1.trans (by decide),
    (decoder_init_failure true opts_pds (world_failing Fn.srd_init)
      (by decide)).2.2.2.2.2.trans (by decide)⟩

theorem finish_calls_dispatched (H : Bool) (o : Opts) (w : World) (g g2 : Globals) (a : Unit)
    (hd : (dispatch H o w g).out = Outcome.cont a g2) :
    calls (finish H o w g).events = calls (dispatch H o w g).events ++
      ((if (H && o.opt_pds) = true then [Fn.srd_exit] else []) ++
        (if ((H && o.opt_pds) = false ∨ log_exits (w.logs Fn.srd_exit) = false) ∧
            g.sr_ctx = true then [Fn.sr_exit] else [])) := by
  rw [finish_eq]
  simp only [hd]
  rw [calls_append]
  congr 1
  rw [teardown_eq]
  by_cases hpds : (H && o.opt_pds) = true <;>
    by_cases hsrd : log_exits (w.logs Fn.srd_exit) = true <;>
    simp [hpds, hsrd, calls, calls_append, calls_log_events, done_calls]

/-- C17 as stated fails: with `parse_options` and all setup steps succeeding and the
dispatched action returning, a critical message logged while `srd_exit` runs makes
`logger` end the process before `sr_exit`, so `srd_exit` is the last library call
and `sr_exit` is never called; and when `sr_init` returned success without storing
a context, `sr_exit` is not called either. -/
theorem teardown_order_counterexample :
    (Event.ret Fn.parse_options true ∈
        (main true opts_pds_show (world_critical_in Fn.srd_exit)).trace ∧
      setup_succeeds (main true opts_pds_show (world_critical_in Fn.srd_exit)).trace ∧
      Event.ret (selected_action true opts_pds_show) true ∈
        (main true opts_pds_show (world_critical_in Fn.srd_exit)).trace ∧
      (calls (main true opts_pds_show (world_critical_in Fn.srd_exit)).trace).getLast? =
        some Fn.srd_exit ∧
      Fn.sr_exit ∉ calls (main true opts_pds_show (world_critical_in Fn.srd_exit)).trace) ∧
    (Event.ret Fn.parse_options true ∈ (main true opts_pds_show world_no_context).trace ∧
      setup_succeeds (main true opts_pds_show world_no_context).trace ∧
      Event.ret (selected_action true opts_pds_show) true ∈
        (main true opts_pds_show world_no_context).trace ∧
      (calls (main true opts_pds_show world_no_context).trace).getLast? = some Fn.srd_exit ∧
      Fn.sr_exit ∉ calls (main true opts_pds_show world_no_context).trace) := by
  decide

/-- C17 amended, teardown on normal completion: in every run in which
`parse_options` and all setup steps succeed and the dispatched action returns,
`srd_exit` is called exactly once if decoder support is compiled in and `opt_pds`
is set, and not at all otherwise; the calls of the run end with `srd_exit` (when it
is called) followed by `sr_exit`, the latter only if `sr_init` left `sr_ctx`
non-NULL and `srd_exit`, when called, logged no fatal or critical message; neither
occurs earlier, so `srd_exit` comes before `sr_exit`, and `sr_exit`, when called, is
the last call; and when `srd_exit` is called, `sr_init` was called before
`srd_init`. -/
theorem teardown_order (H : Bool) (o : Opts) (w : World)
    (hparse : Event.ret Fn.parse_options true ∈ (main H o w).trace)
    (hsetup : setup_succeeds (main H o w).trace)
    (hact : Event.ret (selected_action H o) true ∈ (main H o w).trace) :
    (calls (main H o w).trace).count Fn.srd_exit =
      (if (H && o.opt_pds) = true then 1 else 0) ∧
    ∃ l, calls (main H o w).trace =
        l ++ ((if (H && o.opt_pds) = true then [Fn.srd_exit] else []) ++
          (if ((H && o.opt_pds) = false ∨ log_exits (w.logs Fn.srd_exit) = false) ∧
              w.sr_init_ctx = true then [Fn.sr_exit] else [])) ∧
      Fn.srd_exit ∉ l ∧ Fn.sr_exit ∉ l ∧
      ((H && o.opt_pds) = true → ∃ a b c, l = a ++ Fn.sr_init :: (b ++ Fn.srd_init :: c)) := by
  have hfb := first_bad_none_of_setup_ok H o w hparse hsetup
  obtain ⟨hp1, hp2⟩ := parse_ok_of_ret H o w hparse
  have hp : step_ok w Fn.parse_options = true := by simp [step_ok, hp1, hp2]
  have htrace : (main H o w).trace = prologue o w ++ (setup_res H o w).events ++
      (finish H o w (globals_after w (setup_steps H o) initial_globals)).events := by
    rw [main_cases]
    simp [hp1, hp2, hfb]
  have hsa := selected_is_action H o
  -- the action returned, so the dispatch part completed
  have hin : Event.ret (selected_action H o) true ∈
      (dispatch H o w (globals_after w (setup_steps H o) initial_globals)).events := by
    rw [htrace] at hact
    rcases List.mem_append.mp hact with hm | hm
    · refine absurd hm (ret_not_before_tail H o w _ true ?_ ?_ ?_)
      · have := hsa
        revert this
        cases selected_action H o <;> simp [is_action, is_setup_step]
      · rintro h
        rw [h] at hsa
        cases hsa
      · rintro h
        rw [h] at hsa
        cases hsa
    · exact action_ret_in_dispatch H o w _ _ true hsa hm
  obtain ⟨g1, hd⟩ := dispatch_returned H o w _ hin
  have hctx : (globals_after w (setup_steps H o) initial_globals).sr_ctx = w.sr_init_ctx := by
    simp [globals_after, sr_init_mem_setup_steps]
  have hcalls : calls (main H o w).trace =
      ([Fn.g_log_set_default_handler, Fn.parse_options] ++ setup_steps H o ++
        calls (dispatch H o w
          (globals_after w (setup_steps H o) initial_globals)).events) ++
      ((if (H && o.opt_pds) = true then [Fn.srd_exit] else []) ++
        (if ((H && o.opt_pds) = false ∨ log_exits (w.logs Fn.srd_exit) = false) ∧
            w.sr_init_ctx = true then [Fn.sr_exit] else [])) := by
    rw [main_calls, if_pos hp]
    simp only [tail_calls, hfb, finish_calls_dispatched H o w _ g1 () hd, hctx,
      entered_of_all_ok w _ hfb, List.append_assoc]
  have hl1 : ∀ f, is_teardown_fn f = true →
      f ∉ [Fn.g_log_set_default_handler, Fn.parse_options] ++ setup_steps H o ++
        calls (dispatch H o w
          (globals_after w (setup_steps H o) initial_globals)).events := by
    intro f hf
    simp only [List.mem_append, not_or]
    refine ⟨⟨?_, ?_⟩, dispatch_no_teardown_call H o w _ f hf⟩
    · revert hf
      cases f <;> simp [is_teardown_fn]
    · have := entered_no_teardown H o w f hf
      rwa [entered_of_all_ok w _ hfb] at this
  refine ⟨?_, _, hcalls, hl1 Fn.srd_exit rfl, hl1 Fn.sr_exit rfl, fun hpds => ?_⟩
  · rw [hcalls, List.count_append, List.count_eq_zero.mpr (hl1 Fn.srd_exit rfl)]
    split_ifs <;> decide
  · simp only [Bool.and_eq_true] at hpds
    obtain ⟨rfl, hpds⟩ := hpds
    refine ⟨[Fn.g_log_set_default_handler, Fn.parse_options, Fn.sr_log_loglevel_set],
      [Fn.srd_log_loglevel_set], [Fn.srd_session_new, Fn.register_pds, Fn.setup_pd_stack] ++
        sink_steps o ++ calls (dispatch true o w
          (globals_after w (setup_steps true o) initial_globals)).events, ?_⟩
    simp [setup_steps, hpds]

theorem teardown_order_witness :
    (Event.ret Fn.parse_options true ∈ (main true opts_pds_show world_ok).trace ∧
      setup_succeeds (main true opts_pds_show world_ok).trace ∧
      Event.ret (selected_action true opts_pds_show) true ∈
        (main true opts_pds_show world_ok).trace) ∧
    (calls (main true opts_pds_show world_ok).trace).count Fn.srd_exit = 1 :=
  ⟨⟨by decide, by decide, by decide⟩,
    (teardown_order true opts_pds_show world_ok (by decide) (by decide)
      (by decide)).1.trans (by decide)⟩

end SigrokCli
